import Mathlib

/-!
# Verification of the py-toolkit venv core

Shallow embedding of the project-discovery / venv-staleness core of the
py-toolkit VS Code extension (`src/venv/hash.ts`, `src/venv/packageManager.ts`,
`src/venv/manager.ts`, `src/discovery/venv.ts`, `src/discovery/projects.ts`).

Modelling conventions:
* File contents are raw bytes (`List Nat`); UTF-8 text files hold ASCII in all
  code paths of interest, so encoding is modelled as `Char.toNat` per char.
* The filesystem is an association list from absolute path strings to entries;
  a write shadows older entries.  Paths are absolute, normalized, and
  `'/'`-separated (the embedding fixes `process.platform` to POSIX, matching
  every non-`win32` branch of the source).
* Fallible filesystem reads (Node throws `ENOENT`/`EISDIR`) are `Except`.
* `crypto.createHash('md5')` is embedded as a full MD5 implementation over
  bytes, with 32-bit words as `Nat` reduced mod `2^32`.
-/

deriving instance DecidableEq for Except

/-! ## Bytes, characters and small string utilities -/

abbrev Bytes := List Nat

/-- UTF-8 encode (faithful for the ASCII contents used throughout). -/
def strBytes (s : String) : Bytes := s.data.map Char.toNat

/-- UTF-8 decode (faithful for ASCII byte contents). -/
def bytesStr (b : Bytes) : String := String.mk (b.map Char.ofNat)

/-- Contiguous-sublist test (helper for JS `String.prototype.includes`). -/
def isInfixB (pat : List Char) : List Char → Bool
  | [] => pat.isEmpty
  | c :: t => List.isPrefixOf pat (c :: t) || isInfixB pat t

/-- JS `String.prototype.includes`: contiguous substring test. -/
def strContains (s sub : String) : Bool := isInfixB sub.data s.data

/-- JS `String.prototype.startsWith`. -/
def startsWithStr (s pre : String) : Bool := List.isPrefixOf pre.data s.data

/-- Whitespace recognised by `String.prototype.trim` (the subset arising here). -/
def isWS (c : Char) : Bool := c = ' ' || c = '\n' || c = '\t' || c = '\r'

/-- JS `String.prototype.trim`. -/
def trimStr (s : String) : String :=
  String.mk (((s.data.dropWhile isWS).reverse.dropWhile isWS).reverse)

/-- Node `path.join` restricted to one extra segment on a normalized
absolute base (`path.join('/', x) = '/' ++ x`, else insert a slash). -/
def joinPath (a b : String) : String :=
  if a = "/" then a ++ b else a ++ "/" ++ b

/-- Split a character list at every `'/'` (always returns at least one,
possibly empty, segment — the shape of `String.split` on `"/"`). -/
def splitSlash : List Char → List (List Char)
  | [] => [[]]
  | c :: t =>
    match splitSlash t with
    | [] => [[]]
    | h :: r => if c = '/' then [] :: h :: r else (c :: h) :: r

/-- Join segments with `'/'` separators. -/
def joinSegs : List String → String
  | [] => ""
  | [a] => a
  | a :: rest => a ++ "/" ++ joinSegs rest

/-- The `'/'`-segment list of a path string. -/
def segsOf (p : String) : List String := (splitSlash p.data).map String.mk

/-- Code-point comparison of char lists (structural stand-in for
`localeCompare` ordering). -/
def charsLe : List Char → List Char → Bool
  | [], _ => true
  | _ :: _, [] => false
  | a :: s, b :: t => if a = b then charsLe s t else decide (a.toNat < b.toNat)

def strLeB (a b : String) : Bool := charsLe a.data b.data

/-- JS `String.prototype.endsWith`. -/
def endsWithStr (s suffix : String) : Bool :=
  List.isPrefixOf suffix.data.reverse s.data.reverse

/-- Node `path.dirname` on normalized absolute paths. -/
def dirname (p : String) : String :=
  let parts := segsOf p
  if parts.length ≤ 2 then "/" else joinSegs parts.dropLast

/-! ## Filesystem model -/

inductive Entry : Type where
  | file (content : Bytes)
  | dir
deriving DecidableEq

abbrev FS := List (String × Entry)

def FS.lookup (fs : FS) (p : String) : Option Entry :=
  (List.find? (fun e => e.1 == p) fs).map (·.2)

/-- `fs.existsSync`: true for files and directories alike. -/
def existsSync (fs : FS) (p : String) : Bool := (FS.lookup fs p).isSome

/-- `fs.readFileSync` (raw bytes); throws on missing paths and directories. -/
def readFileBytes (fs : FS) (p : String) : Except String Bytes :=
  match FS.lookup fs p with
  | some (.file c) => .ok c
  | some .dir => .error ("EISDIR: " ++ p)
  | none => .error ("ENOENT: " ++ p)

/-- `fs.writeFileSync`: the new binding shadows any previous entry. -/
def FS.writeFile (fs : FS) (p : String) (c : Bytes) : FS := (p, .file c) :: fs

/-- `existsSync(p) && statSync(p).isDirectory()`. -/
def isDirEx (fs : FS) (p : String) : Bool :=
  match FS.lookup fs p with
  | some .dir => true
  | _ => false

/-! ## MD5 (`crypto.createHash('md5')`), 32-bit words as `Nat` mod `2^32` -/

def M32 : Nat := 4294967296

def not32 (x : Nat) : Nat := 4294967295 - x % M32

def rotl32 (x n : Nat) : Nat :=
  let y := x % M32
  ((y <<< n) % M32) + (y >>> (32 - n))

def md5K : List Nat :=
  [0xd76aa478, 0xe8c7b756, 0x242070db, 0xc1bdceee,
   0xf57c0faf, 0x4787c62a, 0xa8304613, 0xfd469501,
   0x698098d8, 0x8b44f7af, 0xffff5bb1, 0x895cd7be,
   0x6b901122, 0xfd987193, 0xa679438e, 0x49b40821,
   0xf61e2562, 0xc040b340, 0x265e5a51, 0xe9b6c7aa,
   0xd62f105d, 0x02441453, 0xd8a1e681, 0xe7d3fbc8,
   0x21e1cde6, 0xc33707d6, 0xf4d50d87, 0x455a14ed,
   0xa9e3e905, 0xfcefa3f8, 0x676f02d9, 0x8d2a4c8a,
   0xfffa3942, 0x8771f681, 0x6d9d6122, 0xfde5380c,
   0xa4beea44, 0x4bdecfa9, 0xf6bb4b60, 0xbebfbc70,
   0x289b7ec6, 0xeaa127fa, 0xd4ef3085, 0x04881d05,
   0xd9d4d039, 0xe6db99e5, 0x1fa27cf8, 0xc4ac5665,
   0xf4292244, 0x432aff97, 0xab9423a7, 0xfc93a039,
   0x655b59c3, 0x8f0ccc92, 0xffeff47d, 0x85845dd1,
   0x6fa87e4f, 0xfe2ce6e0, 0xa3014314, 0x4e0811a1,
   0xf7537e82, 0xbd3af235, 0x2ad7d2bb, 0xeb86d391]

def md5S : List Nat :=
  [7, 12, 17, 22, 7, 12, 17, 22, 7, 12, 17, 22, 7, 12, 17, 22,
   5, 9, 14, 20, 5, 9, 14, 20, 5, 9, 14, 20, 5, 9, 14, 20,
   4, 11, 16, 23, 4, 11, 16, 23, 4, 11, 16, 23, 4, 11, 16, 23,
   6, 10, 15, 21, 6, 10, 15, 21, 6, 10, 15, 21, 6, 10, 15, 21]

/-- One little-endian 32-bit word from four bytes. -/
def leWord (bs : Bytes) : Nat :=
  match bs with
  | [a, b, c, d] => a + 256 * b + 65536 * c + 16777216 * d
  | _ => 0

def chunkWords (chunk : Bytes) : List Nat :=
  (List.range 16).map (fun j => leWord ((chunk.drop (4 * j)).take 4))

def md5Step (m : List Nat) (st : Nat × Nat × Nat × Nat) (i : Nat) :
    Nat × Nat × Nat × Nat :=
  let (a, b, c, d) := st
  let f :=
    if i < 16 then (b &&& c) ||| (not32 b &&& d)
    else if i < 32 then (d &&& b) ||| (not32 d &&& c)
    else if i < 48 then (b ^^^ c) ^^^ d
    else c ^^^ (b ||| not32 d)
  let g :=
    if i < 16 then i
    else if i < 32 then (5 * i + 1) % 16
    else if i < 48 then (3 * i + 5) % 16
    else (7 * i) % 16
  let tmp := (f + a + md5K.getD i 0 + m.getD g 0) % M32
  (d, (b + rotl32 tmp (md5S.getD i 0)) % M32, b, c)

def md5Chunk (st : Nat × Nat × Nat × Nat) (chunk : Bytes) : Nat × Nat × Nat × Nat :=
  let m := chunkWords chunk
  let (a, b, c, d) := (List.range 64).foldl (md5Step m) st
  let (a0, b0, c0, d0) := st
  ((a0 + a) % M32, (b0 + b) % M32, (c0 + c) % M32, (d0 + d) % M32)

/-- MD5 padding: `0x80`, zeros to 56 mod 64, then the bit length as
eight little-endian bytes. -/
def md5Pad (msg : Bytes) : Bytes :=
  let len := msg.length
  let r := (len + 1) % 64
  let k := (56 + 64 - r) % 64
  msg ++ [0x80] ++ List.replicate k 0 ++
    (List.range 8).map (fun i => ((8 * len) >>> (8 * i)) % 256)

/-- Split into 64-byte chunks.  The fuel argument (`length + 1` at the call
site) only makes the recursion structural: each round consumes 64 bytes, so
the fuel is never exhausted. -/
def toChunksF : Nat → Bytes → List Bytes
  | 0, _ => []
  | fuel + 1, l => if l.isEmpty then [] else l.take 64 :: toChunksF fuel (l.drop 64)

def toChunks (l : Bytes) : List Bytes := toChunksF (l.length + 1) l

def wordLE (w : Nat) : Bytes :=
  [w % 256, (w >>> 8) % 256, (w >>> 16) % 256, (w >>> 24) % 256]

/-- MD5 digest as 16 bytes. -/
def md5 (msg : Bytes) : Bytes :=
  let st := (toChunks (md5Pad msg)).foldl md5Chunk
    (0x67452301, 0xefcdab89, 0x98badcfe, 0x10325476)
  wordLE st.1 ++ wordLE st.2.1 ++ wordLE st.2.2.1 ++ wordLE st.2.2.2

def hexDigits : List Char := "0123456789abcdef".data

def hexDigitChar (n : Nat) : Char := hexDigits.getD (n % 16) '0'

/-- `.digest('hex')`: lowercase hex encoding of the 16 digest bytes. -/
def md5hex (msg : Bytes) : String :=
  String.mk ((md5 msg).flatMap (fun b => [hexDigitChar (b / 16), hexDigitChar (b % 16)]))

/-! ## `src/venv/hash.ts` — hash store -/

def HASH_FILENAME : String := ".requirements-hash"

/-- `hashFile`: MD5 hex digest of a file's raw bytes. -/
def hashFile (fs : FS) (filePath : String) : Except String String :=
  (readFileBytes fs filePath).map md5hex

/-- `readStoredHash`: `undefined` when the marker file does not exist,
otherwise the file's text, trimmed. -/
def readStoredHash (fs : FS) (venvPath : String) : Except String (Option String) :=
  let hf := joinPath venvPath HASH_FILENAME
  if existsSync fs hf then
    (readFileBytes fs hf).map (fun b => some (trimStr (bytesStr b)))
  else .ok none

/-- `writeHash`: store the digest plus a trailing newline. -/
def writeHash (fs : FS) (venvPath : String) (hash : String) : FS :=
  FS.writeFile fs (joinPath venvPath HASH_FILENAME) (strBytes (hash ++ "\n"))

/-- `isVenvStale`: true when no stored hash exists, else true iff the stored
hash differs from the manifest's current digest. -/
def isVenvStale (fs : FS) (venvPath requirementsPath : String) : Except String Bool := do
  let stored ← readStoredHash fs venvPath
  match stored with
  | none => return true
  | some s => return s != (← hashFile fs requirementsPath)

/-- `findRequirementsFile`: first existing candidate from the priority list. -/
def findRequirementsFile (fs : FS) (projectPath : String) : Option String :=
  (["requirements.txt", "requirements-dev.txt", "requirements-cpu.txt"].map
      (joinPath projectPath)).find? (existsSync fs)

/-! ## `src/discovery/venv.ts` — venv locator -/

/-- `getVenvPython` (POSIX branch). -/
def getVenvPython (venvPath : String) : String :=
  joinPath (joinPath venvPath "bin") "python"

/-- `getVenvPip` (POSIX branch). -/
def getVenvPip (venvPath : String) : String :=
  joinPath (joinPath venvPath "bin") "pip"

/-- `isVenvValid`: the venv's python binary exists. -/
def isVenvValid (fs : FS) (venvPath : String) : Bool :=
  existsSync fs (getVenvPython venvPath)

/-- `path.resolve` on an already-absolute, normalized workspace root is the
identity (the only shape the extension passes in). -/
def resolveStr (p : String) : String := p

/-- The `while (current.startsWith(root))` loop of `findVenvForFile`.
Recursion is structural on a fuel that starts at `current.length + 1`; the
`dirname`-shortens guard keeps the fuel from ever running out, and that
guard itself can only fail on the filesystem root `"/"`, where the source
would loop only for the degenerate input `root = ""` that `path.resolve`
never produces. -/
def findVenvLoop (fs : FS) (root : String) : Nat → String → Option String
  | 0, _ => none
  | fuel + 1, current =>
    if startsWithStr current root then
      let candidate := joinPath current ".venv"
      if isDirEx fs candidate then some candidate
      else if current = root then none
      else if (dirname current).length < current.length then
        findVenvLoop fs root fuel (dirname current)
      else none
    else none

/-- `findVenvForFile`: starts at the file's directory (`statSync` throws on a
missing path), walks upward while the current path string starts with the
root's string, returning the first `.venv` that is a directory. -/
def findVenvForFile (fs : FS) (filePath workspaceRoot : String) :
    Except String (Option String) :=
  match FS.lookup fs filePath with
  | none => .error ("ENOENT: " ++ filePath)
  | some e =>
    let current := match e with | .dir => filePath | .file _ => dirname filePath
    .ok (findVenvLoop fs (resolveStr workspaceRoot) (current.length + 1) current)

/-- Node `path.relative` on normalized absolute paths: strip the common
segments, then `..` for what remains of the source, then the target rest. -/
def pathRelative (fromPath toPath : String) : String :=
  let f := segsOf fromPath
  let t := segsOf toPath
  let k := (List.zip f t).takeWhile (fun p => p.1 == p.2) |>.length
  joinSegs (List.replicate (f.length - k) ".." ++ t.drop k)

/-- `getProjectForFile`: relative path of the file, candidates sorted
longest-first (the JS comparator `(a, b) => b.length - a.length`; JS sort is
stable, as is insertion sort), first candidate `sp` with `rel`
starting with `sp ++ "/"` wins. -/
def getProjectForFile (filePath workspaceRoot : String)
    (subprojectNames : List String) : Option String :=
  let rel := pathRelative workspaceRoot filePath
  let sorted := subprojectNames.insertionSort (fun a b => b.length ≤ a.length)
  sorted.find? (fun sp => startsWithStr rel (sp ++ "/"))

/-! ## `src/venv/packageManager.ts` — package-manager resolver -/

inductive PM : Type where
  | uv
  | venvPip
deriving DecidableEq

/-- `detectPackageManager`.  The preference list is modelled as `List PM`
(the TS source casts the configured strings with `as PackageManager`);
`prefs[0] ?? 'venv+pip'` is `headD`. -/
def detectPackageManager (fs : FS) (prefs : List PM) (projectPath : String) :
    Except String PM := do
  if existsSync fs (joinPath projectPath "uv.lock") then
    return .uv
  let pyproject := joinPath projectPath "pyproject.toml"
  if existsSync fs pyproject then
    let content := bytesStr (← readFileBytes fs pyproject)
    if strContains content "[tool.uv]" then
      return .uv
    if strContains content "[project]" && strContains content "dependencies = [" then
      return .uv
  if existsSync fs (joinPath projectPath "requirements.txt") then
    return .venvPip
  return prefs.headD .venvPip

/-! ## `src/venv/manager.ts` — venv lifecycle manager

External commands are opaque: an oracle `runner : Cmd → Bool` says whether a
spawned command exits 0 (`false` also covers spawn errors, which reject the
same promise), and `uvAvail : Bool` is the outcome of the
`execFileSync('uv', ['--version'])` availability probe.  The event trace
records every external process the TypeScript code starts.  Filesystem
effects of the external tools themselves are outside the model; the trace and
the returned `FS` capture exactly what the TypeScript code spawns and writes. -/

structure Cmd : Type where
  command : String
  args : List String
  cwd : String
deriving DecidableEq

/-- External-process events: the `uv --version` availability probe spawned by
`isUvAvailable`, and a lifecycle command run through `runCommand` together
with its success flag. -/
inductive Ev : Type where
  | probe
  | run (c : Cmd) (ok : Bool)
deriving DecidableEq

inductive VErr : Type where
  | fsError (msg : String)
  | cmdFailed (c : Cmd)
deriving DecidableEq

structure CreateVenvResult : Type where
  venvPath : String
  manager : PM
  created : Bool
  updated : Bool
deriving DecidableEq

/-- `resolvePackageManager`: downgrade `uv` to `venv+pip` when the `uv`
binary is unavailable; the probe runs exactly when detection said `uv`. -/
def resolvePackageManager (uvAvail : Bool) (fs : FS) (prefs : List PM)
    (projectPath : String) : Except String (PM × List Ev) :=
  match detectPackageManager fs prefs projectPath with
  | .error e => .error e
  | .ok det =>
    if det = .uv then .ok (if uvAvail then .uv else .venvPip, [.probe])
    else .ok (det, [])

def createCmd (manager : PM) (venvPath projectPath : String) : Cmd :=
  match manager with
  | .uv => ⟨"uv", ["venv", venvPath], projectPath⟩
  | .venvPip => ⟨"python3", ["-m", "venv", venvPath], projectPath⟩

def installCmd (manager : PM) (reqFile venvPath projectPath : String) : Cmd :=
  match manager with
  | .uv => ⟨"uv", ["pip", "install", "-r", reqFile, "--python", getVenvPython venvPath],
      projectPath⟩
  | .venvPip => ⟨joinPath (joinPath venvPath "bin") "pip", ["install", "-r", reqFile],
      projectPath⟩

/-- The install / `uv sync` phase of `createOrUpdateVenv` (after the venv
exists), plus the hash write after a successful install. -/
def venvInstallStep (runner : Cmd → Bool) (fs : FS) (manager : PM)
    (projectPath venvPath : String) (reqFile : Option String) (ex : Bool)
    (tr : List Ev) : Except VErr CreateVenvResult × FS × List Ev :=
  match reqFile with
  | some r =>
    let c := installCmd manager r venvPath projectPath
    if runner c then
      match hashFile fs r with
      | .error e => (.error (.fsError e), fs, tr ++ [.run c true])
      | .ok h =>
        (.ok ⟨venvPath, manager, !ex, ex⟩, writeHash fs venvPath h, tr ++ [.run c true])
    else (.error (.cmdFailed c), fs, tr ++ [.run c false])
  | none =>
    if manager = .uv && existsSync fs (joinPath projectPath "pyproject.toml") then
      let c : Cmd := ⟨"uv", ["sync"], projectPath⟩
      if runner c then (.ok ⟨venvPath, manager, !ex, ex⟩, fs, tr ++ [.run c true])
      else (.error (.cmdFailed c), fs, tr ++ [.run c false])
    else (.ok ⟨venvPath, manager, !ex, ex⟩, fs, tr)

/-- The slow path of `createOrUpdateVenv`: create the venv when missing, then
install or sync. -/
def venvSteps (runner : Cmd → Bool) (fs : FS) (manager : PM)
    (projectPath venvPath : String) (reqFile : Option String) (ex : Bool)
    (tr : List Ev) : Except VErr CreateVenvResult × FS × List Ev :=
  if ex then venvInstallStep runner fs manager projectPath venvPath reqFile ex tr
  else
    let c := createCmd manager venvPath projectPath
    if runner c then
      venvInstallStep runner fs manager projectPath venvPath reqFile ex (tr ++ [.run c true])
    else (.error (.cmdFailed c), fs, tr ++ [.run c false])

/-- `options?.requirementsFile ?? findRequirementsFile(projectPath)`. -/
def resolveReq (fs : FS) (projectPath : String) (reqOverride : Option String) :
    Option String :=
  match reqOverride with
  | some r => some r
  | none => findRequirementsFile fs projectPath

/-- `createOrUpdateVenv(projectPath, {force, requirementsFile})`. -/
def createOrUpdateVenv (runner : Cmd → Bool) (uvAvail : Bool) (fs : FS)
    (prefs : List PM) (projectPath : String) (force : Bool)
    (reqOverride : Option String) : Except VErr CreateVenvResult × FS × List Ev :=
  match resolvePackageManager uvAvail fs prefs projectPath with
  | .error e => (.error (.fsError e), fs, [])
  | .ok (manager, tr0) =>
    let venvPath := joinPath projectPath ".venv"
    let reqFile := resolveReq fs projectPath reqOverride
    let ex := isVenvValid fs venvPath
    match ex, force, reqFile with
    | true, false, some r =>
      match isVenvStale fs venvPath r with
      | .error e => (.error (.fsError e), fs, tr0)
      | .ok false => (.ok ⟨venvPath, manager, false, false⟩, fs, tr0)
      | .ok true => venvSteps runner fs manager projectPath venvPath (some r) true tr0
    | _, _, _ => venvSteps runner fs manager projectPath venvPath reqFile ex tr0

/-! ## `src/discovery/projects.ts` — project discovery

The directory tree visible to `discoverSubprojects` is modelled as a genuine
tree (`readdirSync` order is the child-list order); `files` are the names of
plain-file entries, `dirs` the subdirectory entries.  Unreadable directories
(caught and skipped in the source) are outside the model. -/

mutual
inductive FTree : Type where
  | mk (files : List String) (dirs : DirList)
inductive DirList : Type where
  | nil
  | cons (name : String) (t : FTree) (rest : DirList)
end

def FTree.filesOf : FTree → List String
  | .mk fl _ => fl

def FTree.dirsOf : FTree → DirList
  | .mk _ ds => ds

def DirList.names : DirList → List String
  | .nil => []
  | .cons n _ rest => n :: rest.names

def ALWAYS_SKIP : List String :=
  ["tools", "out", "__pycache__", "node_modules", ".venv", "venv",
   ".git", ".github", ".vscode", ".devcontainer"]

/-- `p.replace(/\*/g, '')`. -/
def stripStars (p : String) : String := String.mk (p.data.filter (fun c => c ≠ '*'))

/-- `shouldSkip`: hidden names, the fixed skip set, or a configured exclude
pattern matching as a bare substring. -/
def shouldSkip (patterns : List String) (name : String) : Bool :=
  startsWithStr name "." || ALWAYS_SKIP.contains name ||
    patterns.any (fun p => strContains name (stripStars p))

inductive Marker : Type where
  | requirementsTxt
  | pyprojectToml
  | pyFiles
deriving DecidableEq

/-- `fs.existsSync(path.join(dirPath, n))` inside a modelled directory:
true for file and subdirectory entries alike. -/
def entryExists (t : FTree) (n : String) : Bool :=
  t.filesOf.contains n || t.dirsOf.names.contains n

/-- `isProjectDir`: manifest markers, else loose `.py` files. -/
def isProjectDir (t : FTree) : List Marker :=
  let ms :=
    (if entryExists t "requirements.txt" then [Marker.requirementsTxt] else []) ++
    (if entryExists t "pyproject.toml" then [Marker.pyprojectToml] else [])
  if ms.isEmpty then
    if t.filesOf.any (fun f => endsWithStr f ".py") then [Marker.pyFiles] else []
  else ms

structure SubProject : Type where
  name : String
  absolutePath : String
  markers : List Marker
deriving DecidableEq

/-- `relativePath ? relativePath + '/' + entry.name : entry.name`. -/
def extRel (rel nm : String) : String :=
  if rel = "" then nm else rel ++ "/" ++ nm

mutual
/-- The recursive `scan` of `discoverSubprojects`, entered at a directory's
child list. -/
def scanTree (patterns : List String) : FTree → String → String → List SubProject
  | .mk _ ds, basePath, relativePath => scanDirs patterns ds basePath relativePath
/-- One pass over a `readdirSync` listing: record a qualifying directory and
stop descending, otherwise scan its children. -/
def scanDirs (patterns : List String) : DirList → String → String → List SubProject
  | .nil, _, _ => []
  | .cons name child rest, basePath, relativePath =>
    (if shouldSkip patterns name then []
     else
       let fullPath := joinPath basePath name
       let relPath := extRel relativePath name
       let ms := isProjectDir child
       if ms.isEmpty then scanTree patterns child fullPath relPath
       else [⟨relPath, fullPath, ms⟩]) ++
    scanDirs patterns rest basePath relativePath
end

/-- `discoverSubprojects`: scan from the workspace root (the root itself is
never a candidate), then sort by name (`localeCompare` modelled as code-point
order; the sort is a permutation either way). -/
def discoverSubprojects (patterns : List String) (workspaceRoot : String)
    (t : FTree) : List SubProject :=
  (scanTree patterns t workspaceRoot "").insertionSort (fun a b => strLeB a.name b.name)

/- Well-formedness of a modelled directory tree: entry names are nonempty,
`'/'`-free and pairwise distinct — true of every real directory listing. -/
mutual
def FTree.wfB : FTree → Bool
  | .mk _ ds => ds.wfB
def DirList.wfB : DirList → Bool
  | .nil => true
  | .cons n t rest =>
    !(n == "") && !(n.data.contains '/') && !(rest.names.contains n) &&
      t.wfB && rest.wfB
end

/-- `b` lies strictly below `a` in path terms. -/
def strictDesc (a b : String) : Prop := ∃ c, b = a ++ "/" ++ c

/-- The name of every SubProject found below a child named `nm` extends
`nm` by either nothing or a `'/'`-led tail. -/
def famTail (tx : List Char) : Prop := tx = [] ∨ ∃ c, tx = '/' :: c

/-- Chars contributed by the relative-path accumulator before a child name. -/
def relPre (rel : String) : List Char := if rel = "" then [] else rel.data ++ ['/']

/-- Chars contributed by the base-path accumulator before a child name
(`joinPath` semantics). -/
def basePre (b : String) : List Char := if b = "/" then ['/'] else b.data ++ ['/']

/-! ## Claim-side definitions (from the spec's words, for comparison) -/

/-- Modelled from the claim for C4: the documented first-match-wins decision
list of `detectPackageManager`, reading the build manifest only when it is a
plain file. -/
def detectSpecC4 (fs : FS) (prefs : List PM) (projectPath : String) : PM :=
  if existsSync fs (joinPath projectPath "uv.lock") then .uv
  else
    let pyContent : Option String :=
      match FS.lookup fs (joinPath projectPath "pyproject.toml") with
      | some (.file c) => some (bytesStr c)
      | _ => none
    if (match pyContent with
        | some content => strContains content "[tool.uv]"
        | none => false) then .uv
    else if (match pyContent with
        | some content =>
          strContains content "[project]" && strContains content "dependencies = ["
        | none => false) then .uv
    else if existsSync fs (joinPath projectPath "requirements.txt") then .venvPip
    else prefs.headD .venvPip

/-- The sequence of directories `findVenvForFile`'s loop examines: the
upward `dirname` walk from the start directory, kept while the path string
still starts with the root's string, ending at the root itself.  (Same
degenerate-`"/"` guard as `findVenvLoop`.) -/
def walkChainF (root : String) : Nat → String → List String
  | 0, _ => []
  | fuel + 1, current =>
    if startsWithStr current root then
      if current = root then [current]
      else if (dirname current).length < current.length then
        current :: walkChainF root fuel (dirname current)
      else [current]
    else []

def walkChain (root current : String) : List String :=
  walkChainF root (current.length + 1) current

/-- `rel` lies strictly inside the directory named `sp`: the claim's
"proper path-prefix" for C7. -/
def properPathPre (sp rel : String) : Prop := ∃ c, rel = sp ++ "/" ++ c

/-! ## Concrete fixtures used by counterexamples and witnesses -/

def flaskB : Bytes := strBytes "flask\n"

def collisionM1 : Bytes :=
  [0xd1, 0x31, 0xdd, 0x02, 0xc5, 0xe6, 0xee, 0xc4, 0x69, 0x3d, 0x9a, 0x06, 0x98, 0xaf, 0xf9, 0x5c,
   0x2f, 0xca, 0xb5, 0x87, 0x12, 0x46, 0x7e, 0xab, 0x40, 0x04, 0x58, 0x3e, 0xb8, 0xfb, 0x7f, 0x89,
   0x55, 0xad, 0x34, 0x06, 0x09, 0xf4, 0xb3, 0x02, 0x83, 0xe4, 0x88, 0x83, 0x25, 0x71, 0x41, 0x5a,
   0x08, 0x51, 0x25, 0xe8, 0xf7, 0xcd, 0xc9, 0x9f, 0xd9, 0x1d, 0xbd, 0xf2, 0x80, 0x37, 0x3c, 0x5b,
   0xd8, 0x82, 0x3e, 0x31, 0x56, 0x34, 0x8f, 0x5b, 0xae, 0x6d, 0xac, 0xd4, 0x36, 0xc9, 0x19, 0xc6,
   0xdd, 0x53, 0xe2, 0xb4, 0x87, 0xda, 0x03, 0xfd, 0x02, 0x39, 0x63, 0x06, 0xd2, 0x48, 0xcd, 0xa0,
   0xe9, 0x9f, 0x33, 0x42, 0x0f, 0x57, 0x7e, 0xe8, 0xce, 0x54, 0xb6, 0x70, 0x80, 0xa8, 0x0d, 0x1e,
   0xc6, 0x98, 0x21, 0xbc, 0xb6, 0xa8, 0x83, 0x93, 0x96, 0xf9, 0x65, 0x2b, 0x6f, 0xf7, 0x2a, 0x70]

def collisionM2 : Bytes :=
  [0xd1, 0x31, 0xdd, 0x02, 0xc5, 0xe6, 0xee, 0xc4, 0x69, 0x3d, 0x9a, 0x06, 0x98, 0xaf, 0xf9, 0x5c,
   0x2f, 0xca, 0xb5, 0x07, 0x12, 0x46, 0x7e, 0xab, 0x40, 0x04, 0x58, 0x3e, 0xb8, 0xfb, 0x7f, 0x89,
   0x55, 0xad, 0x34, 0x06, 0x09, 0xf4, 0xb3, 0x02, 0x83, 0xe4, 0x88, 0x83, 0x25, 0xf1, 0x41, 0x5a,
   0x08, 0x51, 0x25, 0xe8, 0xf7, 0xcd, 0xc9, 0x9f, 0xd9, 0x1d, 0xbd, 0x72, 0x80, 0x37, 0x3c, 0x5b,
   0xd8, 0x82, 0x3e, 0x31, 0x56, 0x34, 0x8f, 0x5b, 0xae, 0x6d, 0xac, 0xd4, 0x36, 0xc9, 0x19, 0xc6,
   0xdd, 0x53, 0xe2, 0x34, 0x87, 0xda, 0x03, 0xfd, 0x02, 0x39, 0x63, 0x06, 0xd2, 0x48, 0xcd, 0xa0,
   0xe9, 0x9f, 0x33, 0x42, 0x0f, 0x57, 0x7e, 0xe8, 0xce, 0x54, 0xb6, 0x70, 0x80, 0x28, 0x0d, 0x1e,
   0xc6, 0x98, 0x21, 0xbc, 0xb6, 0xa8, 0x83, 0x93, 0x96, 0xf9, 0x65, 0xab, 0x6f, 0xf7, 0x2a, 0x70]

/-- A project with a stale venv under the legacy manager: requirements file
present, venv python present, no stored hash. -/
def fsPipStale : FS := [("/p/requirements.txt", .file flaskB), ("/p/.venv/bin/python", .file [])]

/-- A uv project whose venv is valid and fresh: lockfile, manifest, venv
python, and a stored hash equal to the manifest's digest (plus newline). -/
def fsFastUv : FS :=
  [("/p/uv.lock", .file []),
   ("/p/requirements.txt", .file flaskB),
   ("/p/.venv/bin/python", .file []),
   ("/p/.venv/.requirements-hash", .file (strBytes (md5hex flaskB ++ "\n")))]

/-- Manifest holding the first MD5 collision block. -/
def fsM : FS := [("/m", Entry.file collisionM1)]

/-- After storing the manifest's digest for venv `/v`. -/
def fsMW : FS := writeHash fsM "/v" (md5hex collisionM1)

/-- After then overwriting the manifest with the second collision block. -/
def fsMC : FS := FS.writeFile fsMW "/m" collisionM2

/-- Workspace `/a/b`; sibling directory `/a/bc` (whose path string extends
the root's) holds a file and a `.venv`. -/
def fsC8 : FS := [("/a/bc", .dir), ("/a/bc/x.py", .file []), ("/a/bc/.venv", .dir)]

/-- A venv with a stored hash but no manifest anywhere. -/
def fsC9 : FS := [("/v/.requirements-hash", Entry.file (strBytes "abc\n"))]

/-- Workspace with a venv at `/w/proj/.venv` and a source file below it. -/
def fsV : FS :=
  [("/w", .dir), ("/w/proj", .dir), ("/w/proj/.venv", .dir),
   ("/w/proj/src", .dir), ("/w/proj/src/app.py", .file [])]

/-- Two collision files side by side. -/
def fsColl : FS := [("/a", Entry.file collisionM1), ("/b", Entry.file collisionM2)]

/-- `root/mcp/weather/requirements.txt` with no marker at `root/mcp`. -/
def trNested : FTree :=
  .mk [] (.cons "mcp" (.mk [] (.cons "weather" (.mk ["requirements.txt"] .nil) .nil)) .nil)

/-! ## Helper lemmas: strings, filesystem, digests -/

theorem bytesStr_strBytes (s : String) : bytesStr (strBytes s) = s := by
  simp only [bytesStr, strBytes, List.map_map]
  have hid : Char.ofNat ∘ Char.toNat = id := funext Char.ofNat_toNat
  rw [hid, List.map_id]

theorem lookup_writeFile_self (fs : FS) (p : String) (c : Bytes) :
    FS.lookup (FS.writeFile fs p c) p = some (.file c) := by
  simp [FS.lookup, FS.writeFile, List.find?_cons]

theorem lookup_writeFile_ne (fs : FS) {p q : String} (c : Bytes) (h : q ≠ p) :
    FS.lookup (FS.writeFile fs p c) q = FS.lookup fs q := by
  simp [FS.lookup, FS.writeFile, List.find?_cons, Ne.symm h]

theorem dropWhile_no (p : Char → Bool) :
    ∀ l : List Char, (∀ c ∈ l, p c = false) → l.dropWhile p = l
  | [], _ => rfl
  | c :: t, h => by simp [List.dropWhile_cons, h c (by simp)]

theorem trimStr_append_newline (l : List Char) (hne : l ≠ [])
    (h : ∀ c ∈ l, isWS c = false) :
    trimStr (String.mk (l ++ ['\n'])) = String.mk l := by
  obtain ⟨c, t, rfl⟩ : ∃ c t, l = c :: t := by
    cases l with
    | nil => exact absurd rfl hne
    | cons c t => exact ⟨c, t, rfl⟩
  unfold trimStr
  have hc : isWS c = false := h c (by simp)
  have h1 : ((c :: t) ++ ['\n']).dropWhile isWS = c :: (t ++ ['\n']) := by
    simp [List.dropWhile_cons, hc]
  rw [h1]
  have h2 : (c :: (t ++ ['\n'])).reverse = '\n' :: (t.reverse ++ [c]) := by
    simp
  rw [h2]
  have h3 : ('\n' :: (t.reverse ++ [c])).dropWhile isWS = t.reverse ++ [c] := by
    rw [List.dropWhile_cons]
    simp only [show isWS '\n' = true from rfl, if_pos]
    exact dropWhile_no isWS _ (by
      intro x hx
      rcases List.mem_append.mp hx with hx | hx
      · exact h x (by simp [List.mem_reverse.mp hx])
      · simp at hx; subst hx; exact hc)
  rw [h3]
  simp

theorem md5_cons (msg : Bytes) : ∃ x r, md5 msg = x :: r := by
  simp only [md5, wordLE, List.cons_append]
  exact ⟨_, _, rfl⟩

theorem md5hex_data (msg : Bytes) :
    (md5hex msg).data =
      (md5 msg).flatMap (fun b => [hexDigitChar (b / 16), hexDigitChar (b % 16)]) := rfl

theorem hexDigitChar_mem (n : Nat) : hexDigitChar n ∈ hexDigits := by
  have h16 : n % 16 < 16 := Nat.mod_lt _ (by norm_num)
  have hall : ∀ m, m < 16 → hexDigits.getD m '0' ∈ hexDigits := by decide
  exact hall _ h16

theorem md5hex_chars {msg : Bytes} {c : Char} (hc : c ∈ (md5hex msg).data) :
    c ∈ hexDigits := by
  rw [md5hex_data] at hc
  obtain ⟨b, _, hb⟩ := List.mem_flatMap.mp hc
  simp only [List.mem_cons, List.not_mem_nil, or_false] at hb
  rcases hb with rfl | rfl
  · exact hexDigitChar_mem _
  · exact hexDigitChar_mem _

theorem md5hex_ne_empty (msg : Bytes) : (md5hex msg).data ≠ [] := by
  rw [md5hex_data]
  obtain ⟨x, r, hx⟩ := md5_cons msg
  rw [hx]
  simp

theorem hex_not_ws : ∀ c ∈ hexDigits, isWS c = false := by decide

theorem stored_roundtrip (msg : Bytes) :
    trimStr (bytesStr (strBytes (md5hex msg ++ "\n"))) = md5hex msg := by
  rw [bytesStr_strBytes]
  have hdata : md5hex msg ++ "\n" = String.mk ((md5hex msg).data ++ ['\n']) := by
    apply String.ext
    rw [String.data_append]
  rw [hdata, trimStr_append_newline _ (md5hex_ne_empty msg)
    (fun c hc => hex_not_ws c (md5hex_chars hc))]

theorem hashFile_of_lookup {fs : FS} {p : String} {b : Bytes}
    (h : FS.lookup fs p = some (.file b)) : hashFile fs p = .ok (md5hex b) := by
  unfold hashFile readFileBytes
  rw [h]
  rfl

theorem hashFile_of_missing {fs : FS} {p : String}
    (h : FS.lookup fs p = none) : hashFile fs p = .error ("ENOENT: " ++ p) := by
  unfold hashFile readFileBytes
  rw [h]
  rfl

theorem readStoredHash_of_missing {fs : FS} {v : String}
    (h : FS.lookup fs (joinPath v HASH_FILENAME) = none) :
    readStoredHash fs v = .ok none := by
  unfold readStoredHash
  simp [existsSync, h]

theorem readStoredHash_congr {fs1 fs2 : FS} {v : String}
    (h : FS.lookup fs1 (joinPath v HASH_FILENAME) =
      FS.lookup fs2 (joinPath v HASH_FILENAME)) :
    readStoredHash fs1 v = readStoredHash fs2 v := by
  simp only [readStoredHash, readFileBytes, existsSync, h]

theorem readStoredHash_writeHash (fs : FS) (venv : String) (msg : Bytes) :
    readStoredHash (writeHash fs venv (md5hex msg)) venv = .ok (some (md5hex msg)) := by
  unfold readStoredHash writeHash readFileBytes
  simp only [existsSync, lookup_writeFile_self, Option.isSome_some, if_pos]
  simp [Except.map, stored_roundtrip]

theorem isVenvStale_of_none {fs : FS} {v m : String}
    (h : readStoredHash fs v = .ok none) : isVenvStale fs v m = .ok true := by
  unfold isVenvStale
  rw [h]
  rfl

theorem isVenvStale_of_some {fs : FS} {v m s cur : String}
    (h1 : readStoredHash fs v = .ok (some s)) (h2 : hashFile fs m = .ok cur) :
    isVenvStale fs v m = .ok (s != cur) := by
  unfold isVenvStale
  rw [h1]
  show (hashFile fs m).bind _ = _
  rw [h2]
  rfl

theorem isVenvStale_of_some_err {fs : FS} {v m s e : String}
    (h1 : readStoredHash fs v = .ok (some s)) (h2 : hashFile fs m = .error e) :
    isVenvStale fs v m = .error e := by
  unfold isVenvStale
  rw [h1]
  show (hashFile fs m).bind _ = _
  rw [h2]
  rfl

/-! ## C6 — hashFile determinism and content sensitivity -/

/-- C6 (amended): `hashFile` is deterministic — the digest is a function of
the file's byte content alone (same bytes, same digest, across any two
filesystems and paths).  Universal content-sensitivity is refuted by
`c6_counterexample`. -/
theorem c6_hashFile_deterministic :
    ∀ (fs1 fs2 : FS) (p1 p2 : String) (b : Bytes),
      FS.lookup fs1 p1 = some (.file b) → FS.lookup fs2 p2 = some (.file b) →
      hashFile fs1 p1 = hashFile fs2 p2 := by
  intro fs1 fs2 p1 p2 b h1 h2
  rw [hashFile_of_lookup h1, hashFile_of_lookup h2]

set_option maxRecDepth 100000 in
/-- C6 counterexample: two files whose contents differ byte-for-byte (the
classic two-block MD5 collision pair) receive the same hex digest, refuting
"for every two files whose contents differ, hashFile yields different
digests". -/
theorem c6_counterexample :
    FS.lookup fsColl "/a" = some (.file collisionM1) ∧
    FS.lookup fsColl "/b" = some (.file collisionM2) ∧
    collisionM1 ≠ collisionM2 ∧
    hashFile fsColl "/a" = hashFile fsColl "/b" := by decide

set_option maxRecDepth 100000 in
theorem c6_witness :
    FS.lookup fsColl "/a" = some (.file collisionM1) ∧
    FS.lookup fsM "/m" = some (.file collisionM1) ∧
    hashFile fsColl "/a" = hashFile fsM "/m" :=
  ⟨by decide, by decide,
    c6_hashFile_deterministic fsColl fsM "/a" "/m" collisionM1 (by decide) (by decide)⟩

/-! ## C1 — venv staleness semantics -/

/-- C1 (amended): with no stored hash `isVenvStale` is true; with a stored
hash it returns true iff the manifest's current digest differs from the
stored one; after `writeHash(venv, hashFile(manifest))` an immediate check
is not stale; and it reports stale again once the manifest's content changes
*to bytes with a different digest* (the unqualified "content changes" is
refuted by `c1_counterexample`). -/
theorem c1_staleness :
    ∀ (fs : FS) (venvPath manifestPath : String),
      (readStoredHash fs venvPath = .ok none →
        isVenvStale fs venvPath manifestPath = .ok true) ∧
      (∀ s b, readStoredHash fs venvPath = .ok (some s) →
        FS.lookup fs manifestPath = some (.file b) →
        isVenvStale fs venvPath manifestPath = .ok (s != md5hex b)) ∧
      (∀ b, FS.lookup fs manifestPath = some (.file b) →
        manifestPath ≠ joinPath venvPath HASH_FILENAME →
        isVenvStale (writeHash fs venvPath (md5hex b)) venvPath manifestPath =
          .ok false) ∧
      (∀ b b2, FS.lookup fs manifestPath = some (.file b) →
        manifestPath ≠ joinPath venvPath HASH_FILENAME →
        md5hex b2 ≠ md5hex b →
        isVenvStale (FS.writeFile (writeHash fs venvPath (md5hex b)) manifestPath b2)
          venvPath manifestPath = .ok true) := by
  intro fs venvPath manifestPath
  refine ⟨fun h => isVenvStale_of_none h, fun s b h1 h2 => ?_, fun b hm hne => ?_,
    fun b b2 hm hne hdiff => ?_⟩
  · exact isVenvStale_of_some h1 (hashFile_of_lookup h2)
  · have hstored := readStoredHash_writeHash fs venvPath b
    have hcur : hashFile (writeHash fs venvPath (md5hex b)) manifestPath =
        .ok (md5hex b) := by
      apply hashFile_of_lookup
      rw [writeHash, lookup_writeFile_ne _ _ hne]
      exact hm
    rw [isVenvStale_of_some hstored hcur]
    simp
  · have hstored :
        readStoredHash (FS.writeFile (writeHash fs venvPath (md5hex b)) manifestPath b2)
          venvPath = .ok (some (md5hex b)) := by
      rw [readStoredHash_congr (lookup_writeFile_ne _ _ (Ne.symm hne))]
      exact readStoredHash_writeHash fs venvPath b
    have hcur :
        hashFile (FS.writeFile (writeHash fs venvPath (md5hex b)) manifestPath b2)
          manifestPath = .ok (md5hex b2) :=
      hashFile_of_lookup (lookup_writeFile_self _ _ _)
    rw [isVenvStale_of_some hstored hcur]
    simp [bne_iff_ne, Ne.symm hdiff]

set_option maxRecDepth 100000 in
/-- C1 counterexample: store the manifest's digest, then change the manifest
to different bytes with the same MD5 digest (collision pair): `isVenvStale`
still reports `false`, refuting "returns true again once the manifest's
content changes". -/
theorem c1_counterexample :
    fsMW = writeHash fsM "/v" (md5hex collisionM1) ∧
    FS.lookup fsMW "/m" = some (.file collisionM1) ∧
    isVenvStale fsMW "/v" "/m" = .ok false ∧
    fsMC = FS.writeFile fsMW "/m" collisionM2 ∧
    collisionM2 ≠ collisionM1 ∧
    isVenvStale fsMC "/v" "/m" = .ok false := by decide

set_option maxRecDepth 100000 in
theorem c1_witness :
    FS.lookup fsM "/m" = some (.file collisionM1) ∧
    "/m" ≠ joinPath "/v" HASH_FILENAME ∧
    isVenvStale (writeHash fsM "/v" (md5hex collisionM1)) "/v" "/m" = .ok false :=
  ⟨by decide, by decide,
    (c1_staleness fsM "/v" "/m").2.2.1 collisionM1 (by decide) (by decide)⟩

/-! ## C9 — NotFound reporting at the lowest layers -/

/-- C9 (amended): a missing stored hash is reported as an absent result and
makes `isVenvStale` true without touching the manifest; but `isVenvStale`
raises on a missing manifest when a stored hash exists, and `findVenvForFile`
raises on a missing file path (`statSync`) — missing entities are *not*
uniformly reported as absent results. -/
theorem c9_notfound :
    (∀ (fs : FS) (v : String), FS.lookup fs (joinPath v HASH_FILENAME) = none →
      readStoredHash fs v = .ok none) ∧
    (∀ (fs : FS) (v m : String), readStoredHash fs v = .ok none →
      isVenvStale fs v m = .ok true) ∧
    (∀ (fs : FS) (v m s : String), readStoredHash fs v = .ok (some s) →
      FS.lookup fs m = none → isVenvStale fs v m = .error ("ENOENT: " ++ m)) ∧
    (∀ (fs : FS) (f r : String), FS.lookup fs f = none →
      findVenvForFile fs f r = .error ("ENOENT: " ++ f)) := by
  refine ⟨fun fs v h => readStoredHash_of_missing h,
    fun fs v m h => isVenvStale_of_none h,
    fun fs v m s h1 h2 => isVenvStale_of_some_err h1 (hashFile_of_missing h2),
    fun fs f r h => ?_⟩
  unfold findVenvForFile
  rw [h]

/-- C9 counterexample: `findVenvForFile` on a non-existent file path raises
(`statSync` ENOENT), and `isVenvStale` on a non-existent manifest raises when
a stored hash exists — both named particulars of the claim throw. -/
theorem c9_counterexample :
    findVenvForFile ([] : FS) "/w/x.py" "/w" = .error "ENOENT: /w/x.py" ∧
    readStoredHash fsC9 "/v" = .ok (some "abc") ∧
    isVenvStale fsC9 "/v" "/missing" = .error "ENOENT: /missing" := by decide

theorem c9_witness :
    readStoredHash ([] : FS) "/v" = .ok none ∧
    isVenvStale ([] : FS) "/v" "/m2" = .ok true ∧
    findVenvForFile ([] : FS) "/f.py" "/r" = .error "ENOENT: /f.py" :=
  ⟨c9_notfound.1 [] "/v" (by decide),
    c9_notfound.2.1 [] "/v" "/m2" (c9_notfound.1 [] "/v" (by decide)),
    c9_notfound.2.2.2 [] "/f.py" "/r" (by decide)⟩

/-! ## C8 — findVenvForFile walk semantics -/

theorem findVenvLoop_eq_walk (fs : FS) (root : String) :
    ∀ (fuel : Nat) (current : String),
      findVenvLoop fs root fuel current =
        ((walkChainF root fuel current).find?
          (fun d => isDirEx fs (joinPath d ".venv"))).map (fun d => joinPath d ".venv") := by
  intro fuel
  induction fuel with
  | zero => intro current; rfl
  | succ n ih =>
    intro current
    unfold findVenvLoop walkChainF
    by_cases h1 : startsWithStr current root
    · by_cases h2 : isDirEx fs (joinPath current ".venv")
      · by_cases h3 : current = root
        · subst h3; simp [h1, h2, List.find?_cons_of_pos]
        · by_cases h4 : (dirname current).length < current.length
          · simp [h1, h2, h3, h4, List.find?_cons_of_pos]
          · simp [h1, h2, h3, h4, List.find?_cons_of_pos]
      · by_cases h3 : current = root
        · subst h3; simp [h1, h2, List.find?_cons_of_neg]
        · by_cases h4 : (dirname current).length < current.length
          · simp [h1, h2, h3, h4, List.find?_cons_of_neg, ih]
          · simp [h1, h2, h3, h4, List.find?_cons_of_neg]
    · simp [h1]

/-- C8 (amended): for an existing file path, `findVenvForFile` walks upward
from the containing directory (or the path itself for a directory) and
returns the `.venv` of the first directory on the walk containing a `.venv`
directory, absent otherwise — but the walk's boundary test is the JS string
`startsWith` on the root's path, not subtree membership: the walk keeps any
path whose *string* starts with the root's string (see `c8_counterexample`
for a sibling directory passing the test), ends at the root itself, and the
function raises on a missing file path. -/
theorem c8_findVenv :
    ∀ (fs : FS) (filePath workspaceRoot : String) (e : Entry),
      FS.lookup fs filePath = some e →
      findVenvForFile fs filePath workspaceRoot = .ok
        (((walkChain (resolveStr workspaceRoot)
            (match e with | .dir => filePath | .file _ => dirname filePath)).find?
          (fun d => isDirEx fs (joinPath d ".venv"))).map (fun d => joinPath d ".venv")) := by
  intro fs f root e h
  unfold findVenvForFile walkChain
  rw [h]
  cases e with
  | dir => simp only [findVenvLoop_eq_walk]
  | file c => simp only [findVenvLoop_eq_walk]

/-- C8 counterexample: workspace root `/a/b`, file `/a/bc/x.py`.  The start
directory `/a/bc` is outside the root's subtree (it is a sibling whose name
merely extends the root's string), yet the walk accepts it via the string
test and returns `/a/bc/.venv`, where the claim requires absent. -/
theorem c8_counterexample :
    findVenvForFile fsC8 "/a/bc/x.py" "/a/b" = .ok (some "/a/bc/.venv") ∧
    "/a/bc" ≠ "/a/b" ∧
    startsWithStr "/a/bc" "/a/b/" = false := by decide

theorem c8_witness :
    FS.lookup fsV "/w/proj/src/app.py" = some (.file []) ∧
    findVenvForFile fsV "/w/proj/src/app.py" "/w" = .ok
      (((walkChain (resolveStr "/w") (dirname "/w/proj/src/app.py")).find?
        (fun d => isDirEx fsV (joinPath d ".venv"))).map (fun d => joinPath d ".venv")) :=
  ⟨by decide, c8_findVenv fsV "/w/proj/src/app.py" "/w" (.file []) (by decide)⟩

/-! ## C7 — getProjectForFile longest-match semantics -/

theorem startsWithStr_iff {s pre : String} :
    startsWithStr s pre = true ↔ ∃ t : String, s = pre ++ t := by
  unfold startsWithStr
  rw [ List.isPrefixOf_iff_prefix]
  constructor
  · intro h
    obtain ⟨t, ht⟩ := h
    refine ⟨String.mk t, String.ext ?_⟩
    rw [String.data_append, ← ht]
  · rintro ⟨t, rfl⟩
    exact ⟨t.data, by rw [String.data_append]⟩

theorem properPathPre_iff {sp rel : String} :
    properPathPre sp rel ↔ startsWithStr rel (sp ++ "/") = true := by
  unfold properPathPre
  rw [startsWithStr_iff]

theorem pre_eq_of_length {a b rel : String}
    (ha : startsWithStr rel (a ++ "/") = true)
    (hb : startsWithStr rel (b ++ "/") = true)
    (hlen : a.length = b.length) : a = b := by
  unfold startsWithStr at ha hb
  rw [ List.isPrefixOf_iff_prefix] at ha hb
  rw [List.prefix_iff_eq_take] at ha hb
  have hd : (a ++ "/").data = (b ++ "/").data := by
    rw [ha, hb]
    have : (a ++ "/").data.length = (b ++ "/").data.length := by
      simp [String.data_append, hlen]
    rw [this]
  rw [String.data_append, String.data_append] at hd
  exact String.ext (List.append_cancel_right hd)

theorem find?_sorted_len (p : String → Bool) :
    ∀ l : List String, List.Pairwise (fun a b => b.length ≤ a.length) l →
      ((∀ x, l.find? p = some x → p x = true ∧ x ∈ l ∧
        ∀ y ∈ l, p y = true → y.length ≤ x.length) ∧
       (l.find? p = none → ∀ y ∈ l, p y = false)) := by
  intro l
  induction l with
  | nil =>
    intro _
    constructor
    · intro x hx
      cases hx
    · intro _ y hy
      cases hy
  | cons a t ih =>
    intro hp
    obtain ⟨ha, ht⟩ := List.pairwise_cons.mp hp
    by_cases hpa : p a = true
    · refine ⟨fun x hx => ?_, fun hnone => ?_⟩
      · rw [List.find?_cons_of_pos _ hpa] at hx
        cases hx
        refine ⟨hpa, by simp, fun y hy hpy => ?_⟩
        rcases List.mem_cons.mp hy with rfl | hy
        · exact le_refl _
        · exact ha y hy
      · rw [List.find?_cons_of_pos _ hpa] at hnone
        cases hnone
    · refine ⟨fun x hx => ?_, fun hnone y hy => ?_⟩
      · rw [List.find?_cons_of_neg _ hpa] at hx
        obtain ⟨h1, h2, h3⟩ := (ih ht).1 x hx
        refine ⟨h1, List.mem_cons.mpr (Or.inr h2), fun y hy hpy => ?_⟩
        rcases List.mem_cons.mp hy with rfl | hy
        · exact absurd hpy hpa
        · exact h3 y hy hpy
      · rw [List.find?_cons_of_neg _ hpa] at hnone
        rcases List.mem_cons.mp hy with rfl | hy
        · exact Bool.not_eq_true _ ▸ (by simpa using hpa)
        · exact (ih ht).2 hnone y hy

/-- C7: `getProjectForFile` returns the longest candidate name that is a
proper path-ancestor of the file's path relative to the workspace root (a
nested project beats an ancestor project; equal-length matches are
impossible), and absent when no candidate matches. -/
theorem c7_projectForFile :
    ∀ (filePath workspaceRoot : String) (names : List String),
      (∀ sp, getProjectForFile filePath workspaceRoot names = some sp →
        sp ∈ names ∧ properPathPre sp (pathRelative workspaceRoot filePath) ∧
        (∀ sp2 ∈ names, properPathPre sp2 (pathRelative workspaceRoot filePath) →
          sp2.length ≤ sp.length) ∧
        (∀ sp2 ∈ names, properPathPre sp2 (pathRelative workspaceRoot filePath) →
          sp2.length = sp.length → sp2 = sp)) ∧
      (getProjectForFile filePath workspaceRoot names = none →
        ∀ sp2 ∈ names, ¬ properPathPre sp2 (pathRelative workspaceRoot filePath)) := by
  intro filePath workspaceRoot names
  haveI hTot : IsTotal String (fun a b => b.length ≤ a.length) :=
    ⟨fun a b => (Nat.le_total b.length a.length)⟩
  haveI hTrans : IsTrans String (fun a b => b.length ≤ a.length) :=
    ⟨fun _ _ _ h1 h2 => le_trans h2 h1⟩
  have hsorted :
      List.Pairwise (fun a b : String => b.length ≤ a.length)
        (names.insertionSort (fun a b => b.length ≤ a.length)) :=
    List.sorted_insertionSort _ names
  have hspec := find?_sorted_len
    (fun sp => startsWithStr (pathRelative workspaceRoot filePath) (sp ++ "/"))
    (names.insertionSort (fun a b => b.length ≤ a.length)) hsorted
  constructor
  · intro sp hsp
    have hfind : (names.insertionSort (fun a b => b.length ≤ a.length)).find?
        (fun sp => startsWithStr (pathRelative workspaceRoot filePath) (sp ++ "/")) =
        some sp := hsp
    obtain ⟨h1, h2, h3⟩ := hspec.1 sp hfind
    refine ⟨(List.mem_insertionSort _).mp h2, properPathPre_iff.mpr h1,
      fun sp2 hsp2 hp2 => ?_, fun sp2 hsp2 hp2 hlen => ?_⟩
    · exact h3 sp2 ((List.mem_insertionSort _).mpr hsp2) (properPathPre_iff.mp hp2)
    · exact pre_eq_of_length (properPathPre_iff.mp hp2) h1 hlen
  · intro hnone sp2 hsp2 hp2
    have hfalse : startsWithStr (pathRelative workspaceRoot filePath) (sp2 ++ "/") =
        false := hspec.2 hnone sp2 ((List.mem_insertionSort _).mpr hsp2)
    rw [properPathPre_iff] at hp2
    rw [hp2] at hfalse
    cases hfalse

theorem c7_witness :
    getProjectForFile "/r/mcp/weather/main.py" "/r" ["mcp", "mcp/weather"] =
      some "mcp/weather" ∧
    "mcp/weather" ∈ ["mcp", "mcp/weather"] ∧
    properPathPre "mcp/weather" (pathRelative "/r" "/r/mcp/weather/main.py") ∧
    getProjectForFile "/r/standalone.py" "/r" ["proj"] = none ∧
    ¬ properPathPre "proj" (pathRelative "/r" "/r/standalone.py") :=
  ⟨by decide, by decide,
    ((c7_projectForFile "/r/mcp/weather/main.py" "/r" ["mcp", "mcp/weather"]).1
      "mcp/weather" (by decide)).2.1,
    by decide,
    (c7_projectForFile "/r/standalone.py" "/r" ["proj"]).2 (by decide) "proj" (by decide)⟩

/-! ## C4 — package-manager detection order -/

theorem exceptBind_ok {ε α β : Type} (a : α) (f : α → Except ε β) :
    (do let x ← (Except.ok a : Except ε α); f x) = f a := rfl

/-- C4: `detectPackageManager` implements the documented first-match-wins
decision list (`detectSpecC4`, written from the claim's words) whenever the
build manifest is not a directory, and in particular a `pyproject.toml`
lacking the uv markers together with a `requirements.txt` resolves to the
legacy manager. -/
theorem c4_detect :
    ∀ (fs : FS) (prefs : List PM) (projectPath : String),
      (FS.lookup fs (joinPath projectPath "pyproject.toml") ≠ some .dir →
        detectPackageManager fs prefs projectPath =
          .ok (detectSpecC4 fs prefs projectPath)) ∧
      (∀ c, existsSync fs (joinPath projectPath "uv.lock") = false →
        FS.lookup fs (joinPath projectPath "pyproject.toml") = some (.file c) →
        strContains (bytesStr c) "[tool.uv]" = false →
        (strContains (bytesStr c) "[project]" &&
          strContains (bytesStr c) "dependencies = [") = false →
        existsSync fs (joinPath projectPath "requirements.txt") = true →
        detectPackageManager fs prefs projectPath = .ok .venvPip) := by
  intro fs prefs projectPath
  constructor
  · intro hnd
    by_cases huv : existsSync fs (joinPath projectPath "uv.lock") = true
    · simp [detectPackageManager, detectSpecC4, existsSync, huv, pure, Except.pure]
      simp [existsSync] at huv
      simp [huv]
    · simp only [existsSync] at huv
      cases hpy : FS.lookup fs (joinPath projectPath "pyproject.toml") with
      | none =>
        by_cases h3 : (FS.lookup fs (joinPath projectPath "requirements.txt")).isSome = true
        · simp [detectPackageManager, detectSpecC4, huv, existsSync, hpy,
            readFileBytes, pure, Except.pure, exceptBind_ok, h3]
        · simp [detectPackageManager, detectSpecC4, huv, existsSync, hpy,
            readFileBytes, pure, Except.pure, exceptBind_ok, h3]
      | some e =>
        cases e with
        | dir => exact absurd hpy hnd
        | file c =>
          by_cases h1 : strContains (bytesStr c) "[tool.uv]" = true
          · simp [detectPackageManager, detectSpecC4, huv, existsSync, hpy,
              readFileBytes, pure, Except.pure, Except.bind, exceptBind_ok, h1]
          · by_cases h2 : strContains (bytesStr c) "[project]" = true ∧
                strContains (bytesStr c) "dependencies = [" = true
            · simp [detectPackageManager, detectSpecC4, huv, existsSync, hpy,
                readFileBytes, pure, Except.pure, Except.bind, exceptBind_ok, h1, h2]
            · by_cases h3 :
                  (FS.lookup fs (joinPath projectPath "requirements.txt")).isSome = true
              · simp [detectPackageManager, detectSpecC4, huv, existsSync, hpy,
                  readFileBytes, pure, Except.pure, Except.bind, exceptBind_ok, h1, h2, h3]
              · simp [detectPackageManager, detectSpecC4, huv, existsSync, hpy,
                  readFileBytes, pure, Except.pure, Except.bind, exceptBind_ok, h1, h2, h3]
  · intro c huv hpy h1 h2 hreq
    simp only [existsSync] at huv hreq
    have h2x : ¬(strContains (bytesStr c) "[project]" = true ∧
        strContains (bytesStr c) "dependencies = [" = true) := by
      rintro ⟨ha, hb⟩
      rw [ha, hb] at h2
      simp at h2
    simp [detectPackageManager, huv, existsSync, hpy, readFileBytes,
      pure, Except.pure, Except.bind, exceptBind_ok, h1, h2x, hreq]

theorem c4_witness :
    FS.lookup ([("/p/pyproject.toml", Entry.file (strBytes "[tool.black]\n")),
        ("/p/requirements.txt", Entry.file flaskB)] : FS)
      (joinPath "/p" "pyproject.toml") ≠ some .dir ∧
    detectPackageManager
      [("/p/pyproject.toml", Entry.file (strBytes "[tool.black]\n")),
        ("/p/requirements.txt", Entry.file flaskB)] [] "/p" =
      .ok (detectSpecC4
        [("/p/pyproject.toml", Entry.file (strBytes "[tool.black]\n")),
          ("/p/requirements.txt", Entry.file flaskB)] [] "/p") ∧
    detectPackageManager
      [("/p/pyproject.toml", Entry.file (strBytes "[tool.black]\n")),
        ("/p/requirements.txt", Entry.file flaskB)] [] "/p" = .ok .venvPip :=
  ⟨by decide,
    (c4_detect _ [] "/p").1 (by decide),
    (c4_detect _ [] "/p").2 (strBytes "[tool.black]\n") (by decide) (by decide)
      (by decide) (by decide) (by decide)⟩

/-! ## Structure of the venv lifecycle manager -/

theorem venvInstallStep_err (runner : Cmd → Bool) (fs : FS) (manager : PM)
    (pp vp : String) (rq : Option String) (ex : Bool) (tr : List Ev) (e : VErr)
    (he : (venvInstallStep runner fs manager pp vp rq ex tr).1 = .error e) :
    (venvInstallStep runner fs manager pp vp rq ex tr).2.1 = fs := by
  unfold venvInstallStep at *
  cases rq with
  | some r =>
    by_cases hrun : runner (installCmd manager r vp pp) = true
    · cases hh : hashFile fs r with
      | error e2 => simp [hrun, hh]
      | ok hv => simp [hrun, hh] at he
    · simp [hrun]
  | none =>
    by_cases hsync : (decide (manager = PM.uv) &&
        existsSync fs (joinPath pp "pyproject.toml")) = true
    · by_cases hrun : runner ⟨"uv", ["sync"], pp⟩ = true
      · simp [hsync, hrun] at he
      · simp [hsync, hrun]
    · simp [hsync] at he

theorem venvInstallStep_write (runner : Cmd → Bool) (fs : FS) (manager : PM)
    (pp vp : String) (rq : Option String) (ex : Bool) (tr : List Ev)
    (hw : (venvInstallStep runner fs manager pp vp rq ex tr).2.1 ≠ fs) :
    ∃ r b, rq = some r ∧ runner (installCmd manager r vp pp) = true ∧
      FS.lookup fs r = some (.file b) ∧
      venvInstallStep runner fs manager pp vp rq ex tr =
        (.ok ⟨vp, manager, !ex, ex⟩, writeHash fs vp (md5hex b),
          tr ++ [.run (installCmd manager r vp pp) true]) := by
  unfold venvInstallStep at *
  cases rq with
  | some r =>
    by_cases hrun : runner (installCmd manager r vp pp) = true
    · cases hh : hashFile fs r with
      | error e2 => simp [hrun, hh] at hw
      | ok hv =>
        obtain ⟨b, hb, rfl⟩ :
            ∃ b, FS.lookup fs r = some (.file b) ∧ hv = md5hex b := by
          unfold hashFile readFileBytes at hh
          cases hl : FS.lookup fs r with
          | none => rw [hl] at hh; cases hh
          | some en =>
            cases en with
            | dir => rw [hl] at hh; cases hh
            | file b =>
              rw [hl] at hh
              refine ⟨b, rfl, ?_⟩
              cases hh
              rfl
        exact ⟨r, b, rfl, hrun, hb, by simp [hrun, hh]⟩
    · simp [hrun] at hw
  | none =>
    by_cases hsync : (decide (manager = PM.uv) &&
        existsSync fs (joinPath pp "pyproject.toml")) = true
    · by_cases hrun : runner ⟨"uv", ["sync"], pp⟩ = true
      · simp [hsync, hrun] at hw
      · simp [hsync, hrun] at hw
    · simp [hsync] at hw

theorem venvInstallStep_ok (runner : Cmd → Bool) (fs : FS) (manager : PM)
    (pp vp : String) (rq : Option String) (ex : Bool) (tr : List Ev)
    (res : CreateVenvResult)
    (hok : (venvInstallStep runner fs manager pp vp rq ex tr).1 = .ok res) :
    res = ⟨vp, manager, !ex, ex⟩ := by
  unfold venvInstallStep at hok
  cases rq with
  | some r =>
    by_cases hrun : runner (installCmd manager r vp pp) = true
    · cases hh : hashFile fs r with
      | error e2 => simp [hrun, hh] at hok
      | ok hv =>
        simp [hrun, hh] at hok
        exact hok.symm
    · simp [hrun] at hok
  | none =>
    by_cases hsync : (decide (manager = PM.uv) &&
        existsSync fs (joinPath pp "pyproject.toml")) = true
    · by_cases hrun : runner ⟨"uv", ["sync"], pp⟩ = true
      · simp [hsync, hrun] at hok
        exact hok.symm
      · simp [hsync, hrun] at hok
    · simp [hsync] at hok
      exact hok.symm

theorem venvSteps_err (runner : Cmd → Bool) (fs : FS) (manager : PM)
    (pp vp : String) (rq : Option String) (ex : Bool) (tr : List Ev) (e : VErr)
    (he : (venvSteps runner fs manager pp vp rq ex tr).1 = .error e) :
    (venvSteps runner fs manager pp vp rq ex tr).2.1 = fs := by
  unfold venvSteps at *
  cases ex with
  | true =>
    simp only [if_true] at *
    exact venvInstallStep_err runner fs manager pp vp rq true tr e he
  | false =>
    simp only [Bool.false_eq_true, if_false] at *
    by_cases hrun : runner (createCmd manager vp pp) = true
    · simp only [hrun, if_true] at *
      exact venvInstallStep_err runner fs manager pp vp rq false _ e he
    · simp [hrun] at *

theorem venvSteps_write (runner : Cmd → Bool) (fs : FS) (manager : PM)
    (pp vp : String) (rq : Option String) (ex : Bool) (tr : List Ev)
    (hw : (venvSteps runner fs manager pp vp rq ex tr).2.1 ≠ fs) :
    ∃ r b, rq = some r ∧ runner (installCmd manager r vp pp) = true ∧
      FS.lookup fs r = some (.file b) ∧
      (venvSteps runner fs manager pp vp rq ex tr).2.1 = writeHash fs vp (md5hex b) ∧
      (venvSteps runner fs manager pp vp rq ex tr).1 = .ok ⟨vp, manager, !ex, ex⟩ ∧
      Ev.run (installCmd manager r vp pp) true ∈
        (venvSteps runner fs manager pp vp rq ex tr).2.2 := by
  unfold venvSteps at *
  cases ex with
  | true =>
    simp only [if_true] at *
    obtain ⟨r, b, h1, h2, h3, h4⟩ :=
      venvInstallStep_write runner fs manager pp vp rq true tr hw
    exact ⟨r, b, h1, h2, h3, by rw [h4], by rw [h4], by rw [h4]; simp⟩
  | false =>
    simp only [Bool.false_eq_true, if_false] at *
    by_cases hrun : runner (createCmd manager vp pp) = true
    · simp only [hrun, if_true] at *
      obtain ⟨r, b, h1, h2, h3, h4⟩ :=
        venvInstallStep_write runner fs manager pp vp rq false _ hw
      exact ⟨r, b, h1, h2, h3, by rw [h4], by rw [h4], by rw [h4]; simp⟩
    · simp [hrun] at *

theorem venvSteps_ok (runner : Cmd → Bool) (fs : FS) (manager : PM)
    (pp vp : String) (rq : Option String) (ex : Bool) (tr : List Ev)
    (res : CreateVenvResult)
    (hok : (venvSteps runner fs manager pp vp rq ex tr).1 = .ok res) :
    res = ⟨vp, manager, !ex, ex⟩ := by
  unfold venvSteps at hok
  cases ex with
  | true =>
    simp only [if_true] at hok
    exact venvInstallStep_ok runner fs manager pp vp rq true tr res hok
  | false =>
    simp only [Bool.false_eq_true, if_false] at hok
    by_cases hrun : runner (createCmd manager vp pp) = true
    · simp only [hrun, if_true] at hok
      exact venvInstallStep_ok runner fs manager pp vp rq false _ res hok
    · simp [hrun] at hok

theorem createOrUpdateVenv_resolve_err (runner : Cmd → Bool) (uvAvail : Bool)
    (fs : FS) (prefs : List PM) (pp : String) (force : Bool) (reqO : Option String)
    (e : String) (hres : resolvePackageManager uvAvail fs prefs pp = .error e) :
    createOrUpdateVenv runner uvAvail fs prefs pp force reqO =
      (.error (.fsError e), fs, []) := by
  unfold createOrUpdateVenv
  rw [hres]

theorem createOrUpdateVenv_fast_stale_err (runner : Cmd → Bool) (uvAvail : Bool)
    (fs : FS) (prefs : List PM) (pp : String) (reqO : Option String)
    (m : PM) (tr0 : List Ev) (r : String) (e : String)
    (hres : resolvePackageManager uvAvail fs prefs pp = .ok (m, tr0))
    (hex : isVenvValid fs (joinPath pp ".venv") = true)
    (hreq : resolveReq fs pp reqO = some r)
    (hstale : isVenvStale fs (joinPath pp ".venv") r = .error e) :
    createOrUpdateVenv runner uvAvail fs prefs pp false reqO =
      (.error (.fsError e), fs, tr0) := by
  unfold createOrUpdateVenv
  rw [hres]
  simp [hex, hreq, hstale]

theorem createOrUpdateVenv_fast_noop (runner : Cmd → Bool) (uvAvail : Bool)
    (fs : FS) (prefs : List PM) (pp : String) (reqO : Option String)
    (m : PM) (tr0 : List Ev) (r : String)
    (hres : resolvePackageManager uvAvail fs prefs pp = .ok (m, tr0))
    (hex : isVenvValid fs (joinPath pp ".venv") = true)
    (hreq : resolveReq fs pp reqO = some r)
    (hstale : isVenvStale fs (joinPath pp ".venv") r = .ok false) :
    createOrUpdateVenv runner uvAvail fs prefs pp false reqO =
      (.ok ⟨joinPath pp ".venv", m, false, false⟩, fs, tr0) := by
  unfold createOrUpdateVenv
  rw [hres]
  simp [hex, hreq, hstale]

theorem createOrUpdateVenv_fast_stale_true (runner : Cmd → Bool) (uvAvail : Bool)
    (fs : FS) (prefs : List PM) (pp : String) (reqO : Option String)
    (m : PM) (tr0 : List Ev) (r : String)
    (hres : resolvePackageManager uvAvail fs prefs pp = .ok (m, tr0))
    (hex : isVenvValid fs (joinPath pp ".venv") = true)
    (hreq : resolveReq fs pp reqO = some r)
    (hstale : isVenvStale fs (joinPath pp ".venv") r = .ok true) :
    createOrUpdateVenv runner uvAvail fs prefs pp false reqO =
      venvSteps runner fs m pp (joinPath pp ".venv") (some r) true tr0 := by
  unfold createOrUpdateVenv
  rw [hres]
  simp [hex, hreq, hstale]

theorem createOrUpdateVenv_invalid (runner : Cmd → Bool) (uvAvail : Bool)
    (fs : FS) (prefs : List PM) (pp : String) (force : Bool) (reqO : Option String)
    (m : PM) (tr0 : List Ev)
    (hres : resolvePackageManager uvAvail fs prefs pp = .ok (m, tr0))
    (hex : isVenvValid fs (joinPath pp ".venv") = false) :
    createOrUpdateVenv runner uvAvail fs prefs pp force reqO =
      venvSteps runner fs m pp (joinPath pp ".venv") (resolveReq fs pp reqO) false tr0 := by
  unfold createOrUpdateVenv
  rw [hres]
  simp [hex]

theorem createOrUpdateVenv_force (runner : Cmd → Bool) (uvAvail : Bool)
    (fs : FS) (prefs : List PM) (pp : String) (reqO : Option String)
    (m : PM) (tr0 : List Ev)
    (hres : resolvePackageManager uvAvail fs prefs pp = .ok (m, tr0)) :
    createOrUpdateVenv runner uvAvail fs prefs pp true reqO =
      venvSteps runner fs m pp (joinPath pp ".venv") (resolveReq fs pp reqO)
        (isVenvValid fs (joinPath pp ".venv")) tr0 := by
  unfold createOrUpdateVenv
  rw [hres]
  cases hex : isVenvValid fs (joinPath pp ".venv") <;> simp [hex]

theorem createOrUpdateVenv_noreq (runner : Cmd → Bool) (uvAvail : Bool)
    (fs : FS) (prefs : List PM) (pp : String) (force : Bool) (reqO : Option String)
    (m : PM) (tr0 : List Ev)
    (hres : resolvePackageManager uvAvail fs prefs pp = .ok (m, tr0))
    (hreq : resolveReq fs pp reqO = none) :
    createOrUpdateVenv runner uvAvail fs prefs pp force reqO =
      venvSteps runner fs m pp (joinPath pp ".venv") none
        (isVenvValid fs (joinPath pp ".venv")) tr0 := by
  unfold createOrUpdateVenv
  rw [hres]
  cases hex : isVenvValid fs (joinPath pp ".venv") <;> cases force <;> simp [hex, hreq]

theorem resolve_events (uvAvail : Bool) (fs : FS) (prefs : List PM) (pp : String)
    (m : PM) (tr : List Ev)
    (h : resolvePackageManager uvAvail fs prefs pp = .ok (m, tr)) :
    tr = [] ∨ tr = [.probe] := by
  unfold resolvePackageManager at h
  cases hd : detectPackageManager fs prefs pp with
  | error e => rw [hd] at h; cases h
  | ok det =>
    rw [hd] at h
    by_cases hdet : det = PM.uv
    · simp [hdet] at h
      exact Or.inr h.2.symm
    · simp [hdet] at h
      exact Or.inl h.2

/-! ## C3 — hash written only after a successful install; failures propagate -/

/-- C3: in `createOrUpdateVenv`, an external-command (or filesystem) failure
surfaces as an error and leaves the filesystem — in particular any stored
hash, hence any staleness verdict — unchanged; and whenever the filesystem
*did* change, the change is exactly the stored-hash write for the resolved
manifest, performed after the install command ran and succeeded, with the run
recorded in the event trace and the call returning success. -/
theorem c3_hash_discipline :
    ∀ (runner : Cmd → Bool) (uvAvail : Bool) (fs : FS) (prefs : List PM)
      (pp : String) (force : Bool) (reqO : Option String),
      (∀ e, (createOrUpdateVenv runner uvAvail fs prefs pp force reqO).1 = .error e →
        (createOrUpdateVenv runner uvAvail fs prefs pp force reqO).2.1 = fs ∧
        ∀ v m, isVenvStale (createOrUpdateVenv runner uvAvail fs prefs pp force reqO).2.1
            v m = isVenvStale fs v m) ∧
      ((createOrUpdateVenv runner uvAvail fs prefs pp force reqO).2.1 ≠ fs →
        ∃ manager r b, resolveReq fs pp reqO = some r ∧
          FS.lookup fs r = some (.file b) ∧
          runner (installCmd manager r (joinPath pp ".venv") pp) = true ∧
          (createOrUpdateVenv runner uvAvail fs prefs pp force reqO).2.1 =
            writeHash fs (joinPath pp ".venv") (md5hex b) ∧
          (∃ res, (createOrUpdateVenv runner uvAvail fs prefs pp force reqO).1 =
            .ok res) ∧
          Ev.run (installCmd manager r (joinPath pp ".venv") pp) true ∈
            (createOrUpdateVenv runner uvAvail fs prefs pp force reqO).2.2) := by
  intro runner uvAvail fs prefs pp force reqO
  have cover : (createOrUpdateVenv runner uvAvail fs prefs pp force reqO).2.1 = fs ∨
      ∃ m rq ex tr0, rq = resolveReq fs pp reqO ∧
        createOrUpdateVenv runner uvAvail fs prefs pp force reqO =
          venvSteps runner fs m pp (joinPath pp ".venv") rq ex tr0 := by
    cases hres : resolvePackageManager uvAvail fs prefs pp with
    | error e0 =>
      left
      rw [createOrUpdateVenv_resolve_err runner uvAvail fs prefs pp force reqO e0 hres]
    | ok p =>
      obtain ⟨m, tr0⟩ := p
      cases hex : isVenvValid fs (joinPath pp ".venv") with
      | false =>
        right
        exact ⟨m, _, false, tr0, rfl,
          createOrUpdateVenv_invalid runner uvAvail fs prefs pp force reqO m tr0 hres hex⟩
      | true =>
        cases force with
        | true =>
          right
          exact ⟨m, _, _, tr0, rfl,
            createOrUpdateVenv_force runner uvAvail fs prefs pp reqO m tr0 hres⟩
        | false =>
          cases hreq : resolveReq fs pp reqO with
          | none =>
            right
            exact ⟨m, none, _, tr0, rfl,
              createOrUpdateVenv_noreq runner uvAvail fs prefs pp false reqO m tr0 hres hreq⟩
          | some r =>
            cases hstale : isVenvStale fs (joinPath pp ".venv") r with
            | error e2 =>
              left
              rw [createOrUpdateVenv_fast_stale_err runner uvAvail fs prefs pp reqO
                m tr0 r e2 hres hex hreq hstale]
            | ok b =>
              cases b with
              | false =>
                left
                rw [createOrUpdateVenv_fast_noop runner uvAvail fs prefs pp reqO
                  m tr0 r hres hex hreq hstale]
              | true =>
                right
                exact ⟨m, some r, true, tr0, rfl,
                  createOrUpdateVenv_fast_stale_true runner uvAvail fs prefs pp reqO
                    m tr0 r hres hex hreq hstale⟩
  constructor
  · intro e he
    rcases cover with hfs | ⟨m, rq, ex, tr0, hrq, heq⟩
    · exact ⟨hfs, fun v mm => by rw [hfs]⟩
    · rw [heq] at he ⊢
      have hfs := venvSteps_err runner fs m pp (joinPath pp ".venv") rq ex tr0 e he
      exact ⟨hfs, fun v mm => by rw [hfs]⟩
  · intro hw
    rcases cover with hfs | ⟨m, rq, ex, tr0, hrq, heq⟩
    · exact absurd hfs hw
    · rw [heq] at hw ⊢
      obtain ⟨r, b, h1, h2, h3, h4, h5, h6⟩ :=
        venvSteps_write runner fs m pp (joinPath pp ".venv") rq ex tr0 hw
      rw [hrq] at h1
      exact ⟨m, r, b, h1, h3, h2, h4, ⟨_, h5⟩, h6⟩

theorem c3_witness :
    (createOrUpdateVenv (fun _ => false) false fsPipStale [] "/p" false none).1 =
      .error (.cmdFailed (installCmd .venvPip "/p/requirements.txt" "/p/.venv" "/p")) ∧
    (createOrUpdateVenv (fun _ => false) false fsPipStale [] "/p" false none).2.1 =
      fsPipStale :=
  ⟨by decide,
    ((c3_hash_discipline (fun _ => false) false fsPipStale [] "/p" false none).1
      (.cmdFailed (installCmd .venvPip "/p/requirements.txt" "/p/.venv" "/p"))
      (by decide)).1⟩

/-! ## C2 — the fast no-op path -/

/-- C2 (amended): when the venv validates, `force` is false, a manifest is
resolved, and it is not stale, `createOrUpdateVenv` returns
`{created := false, updated := false}` with the filesystem untouched and no
*lifecycle* command run (the trace holds no `Ev.run` event).  The claim's
stronger "no external process at all" is refuted by `c2_counterexample`: the
package-manager availability probe may still spawn. -/
theorem c2_fast_noop :
    ∀ (runner : Cmd → Bool) (uvAvail : Bool) (fs : FS) (prefs : List PM)
      (pp : String) (reqO : Option String) (m : PM) (tr0 : List Ev) (r : String),
      resolvePackageManager uvAvail fs prefs pp = .ok (m, tr0) →
      isVenvValid fs (joinPath pp ".venv") = true →
      resolveReq fs pp reqO = some r →
      isVenvStale fs (joinPath pp ".venv") r = .ok false →
      createOrUpdateVenv runner uvAvail fs prefs pp false reqO =
        (.ok ⟨joinPath pp ".venv", m, false, false⟩, fs, tr0) ∧
      (∀ c ok, Ev.run c ok ∉ tr0) := by
  intro runner uvAvail fs prefs pp reqO m tr0 r hres hex hreq hstale
  refine ⟨createOrUpdateVenv_fast_noop runner uvAvail fs prefs pp reqO m tr0 r
    hres hex hreq hstale, ?_⟩
  rcases resolve_events uvAvail fs prefs pp m tr0 hres with rfl | rfl
  · intro c ok h
    cases h
  · intro c ok h
    rcases List.mem_singleton.mp h with h2
    cases h2

set_option maxRecDepth 100000 in
/-- C2 counterexample: a uv project on the fast no-op path (valid venv,
fresh hash, `force` false) still spawns one external process — the
`execFileSync('uv', ['--version'])` availability probe recorded as
`Ev.probe` — refuting "must not spawn any process". -/
theorem c2_counterexample :
    createOrUpdateVenv (fun _ => true) true fsFastUv [] "/p" false none =
      (.ok ⟨"/p/.venv", .uv, false, false⟩, fsFastUv, [.probe]) ∧
    ([Ev.probe] : List Ev) ≠ [] := by decide

set_option maxRecDepth 100000 in
theorem c2_witness :
    resolvePackageManager true fsFastUv [] "/p" = .ok (.uv, [.probe]) ∧
    isVenvValid fsFastUv (joinPath "/p" ".venv") = true ∧
    resolveReq fsFastUv "/p" none = some "/p/requirements.txt" ∧
    isVenvStale fsFastUv (joinPath "/p" ".venv") "/p/requirements.txt" = .ok false ∧
    createOrUpdateVenv (fun _ => true) true fsFastUv [] "/p" false none =
      (.ok ⟨joinPath "/p" ".venv", .uv, false, false⟩, fsFastUv, [.probe]) :=
  ⟨by decide, by decide, by decide, by decide,
    (c2_fast_noop (fun _ => true) true fsFastUv [] "/p" none .uv [.probe]
      "/p/requirements.txt" (by decide) (by decide) (by decide) (by decide)).1⟩

/-! ## C10 — updated:true whenever a valid venv skips the fast path -/

/-- C10: if the venv was already valid and the fast no-op path is not taken
(force, or no manifest, or stale) then any successful return reports
`{created := false, updated := true}` — including runs that execute no
external command at all (see `c10_witness`, whose trace is empty). -/
theorem c10_updated :
    ∀ (runner : Cmd → Bool) (uvAvail : Bool) (fs : FS) (prefs : List PM)
      (pp : String) (force : Bool) (reqO : Option String) (res : CreateVenvResult),
      isVenvValid fs (joinPath pp ".venv") = true →
      (force = true ∨ resolveReq fs pp reqO = none ∨
        ∃ r, resolveReq fs pp reqO = some r ∧
          isVenvStale fs (joinPath pp ".venv") r = .ok true) →
      (createOrUpdateVenv runner uvAvail fs prefs pp force reqO).1 = .ok res →
      res.created = false ∧ res.updated = true := by
  intro runner uvAvail fs prefs pp force reqO res hex hdisj hok
  cases hres : resolvePackageManager uvAvail fs prefs pp with
  | error e0 =>
    rw [createOrUpdateVenv_resolve_err runner uvAvail fs prefs pp force reqO e0 hres]
      at hok
    cases hok
  | ok p =>
    obtain ⟨m, tr0⟩ := p
    cases force with
    | true =>
      rw [createOrUpdateVenv_force runner uvAvail fs prefs pp reqO m tr0 hres] at hok
      have hres2 := venvSteps_ok runner fs m pp (joinPath pp ".venv")
        (resolveReq fs pp reqO) (isVenvValid fs (joinPath pp ".venv")) tr0 res hok
      rw [hex] at hres2
      simp [hres2]
    | false =>
      rcases hdisj with hf | hnone | ⟨r, hsome, hstale⟩
      · cases hf
      · rw [createOrUpdateVenv_noreq runner uvAvail fs prefs pp false reqO m tr0
          hres hnone] at hok
        have hres2 := venvSteps_ok runner fs m pp (joinPath pp ".venv") none
          (isVenvValid fs (joinPath pp ".venv")) tr0 res hok
        rw [hex] at hres2
        simp [hres2]
      · rw [createOrUpdateVenv_fast_stale_true runner uvAvail fs prefs pp reqO
          m tr0 r hres hex hsome hstale] at hok
        have hres2 := venvSteps_ok runner fs m pp (joinPath pp ".venv") (some r)
          true tr0 res hok
        simp [hres2]

theorem c10_witness :
    isVenvValid [("/p/.venv/bin/python", Entry.file [])] (joinPath "/p" ".venv") = true ∧
    resolveReq [("/p/.venv/bin/python", Entry.file [])] "/p" none = none ∧
    (createOrUpdateVenv (fun _ => true) true [("/p/.venv/bin/python", Entry.file [])]
      [PM.venvPip] "/p" false none).1 = .ok ⟨"/p/.venv", .venvPip, false, true⟩ ∧
    ((⟨"/p/.venv", .venvPip, false, true⟩ : CreateVenvResult).created = false ∧
      (⟨"/p/.venv", .venvPip, false, true⟩ : CreateVenvResult).updated = true) ∧
    (createOrUpdateVenv (fun _ => true) true [("/p/.venv/bin/python", Entry.file [])]
      [PM.venvPip] "/p" false none).2.2 = [] :=
  ⟨by decide, by decide, by decide,
    c10_updated (fun _ => true) true [("/p/.venv/bin/python", Entry.file [])]
      [PM.venvPip] "/p" false none ⟨"/p/.venv", .venvPip, false, true⟩
      (by decide) (Or.inr (Or.inl (by decide))) (by decide),
    by decide⟩

/-! ## C5 — discovery non-overlap: string-level core lemmas -/

theorem sepSplit : ∀ (l1 l2 r1 r2 : List Char), '/' ∉ l1 → '/' ∉ l2 →
    l1 ++ '/' :: r1 = l2 ++ '/' :: r2 → l1 = l2 ∧ r1 = r2 := by
  intro l1
  induction l1 with
  | nil =>
    intro l2 r1 r2 _ h2 heq
    cases l2 with
    | nil =>
      simp at heq
      exact ⟨rfl, heq⟩
    | cons d u =>
      simp at heq
      exact absurd (heq.1 ▸ List.mem_cons_self d u) (heq.1 ▸ h2)
  | cons c t ih =>
    intro l2 r1 r2 h1 h2 heq
    cases l2 with
    | nil =>
      simp at heq
      exact absurd (heq.1 ▸ List.mem_cons_self c t) (heq.1 ▸ h1)
    | cons d u =>
      simp at heq
      obtain ⟨rfl, heq2⟩ := heq
      obtain ⟨hl, hr⟩ := ih u r1 r2 (fun hm => h1 (List.mem_cons_of_mem _ hm))
        (fun hm => h2 (List.mem_cons_of_mem _ hm)) heq2
      exact ⟨by rw [hl], hr⟩

theorem sepCore {n1 n2 t1 t2 : List Char} (hn1 : n1 ≠ []) (hn2 : n2 ≠ [])
    (hs1 : '/' ∉ n1) (hs2 : '/' ∉ n2) (hne : n1 ≠ n2)
    (ht1 : famTail t1) (ht2 : famTail t2) : n1 ++ t1 ≠ n2 ++ t2 := by
  intro heq
  rcases ht1 with rfl | ⟨c1, rfl⟩ <;> rcases ht2 with rfl | ⟨c2, rfl⟩
  · simp at heq
    exact hne heq
  · rw [List.append_nil] at heq
    exact hs1 (heq ▸ List.mem_append.mpr (Or.inr (List.mem_cons_self _ _)))
  · rw [List.append_nil] at heq
    exact hs2 (heq.symm ▸ List.mem_append.mpr (Or.inr (List.mem_cons_self _ _)))
  · exact hne (sepSplit n1 n2 c1 c2 hs1 hs2 heq).1

theorem famTail_extend {t : List Char} (ht : famTail t) (d : List Char) :
    famTail (t ++ '/' :: d) := by
  rcases ht with rfl | ⟨c, rfl⟩
  · exact Or.inr ⟨d, rfl⟩
  · exact Or.inr ⟨c ++ '/' :: d, rfl⟩

theorem fam_ne {P n1 n2 t1 t2 : List Char} (hn1 : n1 ≠ []) (hn2 : n2 ≠ [])
    (hs1 : '/' ∉ n1) (hs2 : '/' ∉ n2) (hne : n1 ≠ n2)
    (ht1 : famTail t1) (ht2 : famTail t2) :
    P ++ n1 ++ t1 ≠ P ++ n2 ++ t2 := by
  intro h
  rw [List.append_assoc, List.append_assoc] at h
  exact sepCore hn1 hn2 hs1 hs2 hne ht1 ht2 (List.append_cancel_left h)

theorem strictDesc_data {a b : String} :
    strictDesc a b ↔ ∃ cd : List Char, b.data = a.data ++ '/' :: cd := by
  unfold strictDesc
  constructor
  · rintro ⟨c, rfl⟩
    exact ⟨c.data, by simp [String.data_append]⟩
  · rintro ⟨cd, hcd⟩
    refine ⟨String.mk cd, String.ext ?_⟩
    simp [String.data_append, hcd]

theorem strictDesc_irrefl (a : String) : ¬ strictDesc a a := by
  rw [strictDesc_data]
  rintro ⟨cd, hcd⟩
  have := congrArg List.length hcd
  simp at this

theorem fam_not_desc {P n1 n2 t1 t2 : List Char} (hn1 : n1 ≠ []) (hn2 : n2 ≠ [])
    (hs1 : '/' ∉ n1) (hs2 : '/' ∉ n2) (hne : n1 ≠ n2)
    (ht1 : famTail t1) (ht2 : famTail t2) (d : List Char) :
    P ++ n2 ++ t2 ≠ (P ++ n1 ++ t1) ++ '/' :: d := by
  intro h
  rw [List.append_assoc (P ++ n1)] at h
  exact fam_ne hn2 hn1 hs2 hs1 (Ne.symm hne) ht2 (famTail_extend ht1 d) h

theorem str_ne_empty_data {s : String} (h : s ≠ "") : s.data ≠ [] := by
  intro hd
  exact h (String.ext hd)

theorem extRel_data (rel nm : String) :
    (extRel rel nm).data = relPre rel ++ nm.data := by
  unfold extRel relPre
  by_cases h : rel = ""
  · simp [h]
  · simp [h, String.data_append]

theorem joinPath_data (b s : String) :
    (joinPath b s).data = basePre b ++ s.data := by
  unfold joinPath basePre
  by_cases h : b = "/"
  · simp [h, String.data_append]
  · simp [h, String.data_append]

theorem extRel_ne_empty {rel nm : String} (h : nm ≠ "") : extRel rel nm ≠ "" := by
  intro he
  have := congrArg String.data he
  rw [extRel_data] at this
  rcases List.append_eq_nil.mp this with ⟨_, h2⟩
  exact str_ne_empty_data h h2

theorem joinPath_ne_root {b s : String} (h : s ≠ "") : joinPath b s ≠ "/" := by
  intro he
  have hd := congrArg String.data he
  rw [joinPath_data] at hd
  have hlen := congrArg List.length hd
  rw [List.length_append] at hlen
  have h1 : 1 ≤ (basePre b).length := by
    unfold basePre
    by_cases hb : b = "/" <;> simp [hb]
  have h2 : 1 ≤ s.data.length :=
    List.length_pos.mpr (str_ne_empty_data h)
  have : ("/" : String).data.length = 1 := rfl
  omega

theorem relPre_extRel {rel nm : String} (h : nm ≠ "") :
    relPre (extRel rel nm) = (extRel rel nm).data ++ ['/'] := by
  unfold relPre
  rw [if_neg (extRel_ne_empty h)]

theorem basePre_joinPath {b nm : String} (h : nm ≠ "") :
    basePre (joinPath b nm) = (joinPath b nm).data ++ ['/'] := by
  unfold basePre
  rw [if_neg (joinPath_ne_root h)]

theorem wfB_cons {nm : String} {child : FTree} {rest : DirList}
    (h : DirList.wfB (.cons nm child rest) = true) :
    nm ≠ "" ∧ '/' ∉ nm.data ∧ nm ∉ rest.names ∧
      FTree.wfB child = true ∧ DirList.wfB rest = true := by
  unfold DirList.wfB at h
  simp only [Bool.and_eq_true, Bool.not_eq_true'] at h
  obtain ⟨⟨⟨⟨h1, h2⟩, h3⟩, h4⟩, h5⟩ := h
  refine ⟨?_, ?_, ?_, h4, h5⟩
  · intro he
    rw [he] at h1
    simp at h1
  · intro hm
    have he := List.elem_eq_true_of_mem hm
    rw [show nm.data.contains '/' = List.elem '/' nm.data from rfl, he] at h2
    cases h2
  · intro hm
    have he := List.elem_eq_true_of_mem hm
    rw [show rest.names.contains nm = List.elem nm rest.names from rfl, he] at h3
    cases h3

theorem scanTree_eq (patterns : List String) (t : FTree) (b r : String) :
    scanTree patterns t b r = scanDirs patterns t.dirsOf b r := by
  cases t
  rfl

theorem scanDirs_inv (patterns : List String) :
    ∀ (N : Nat) (ds : DirList) (basePath relativePath : String),
      sizeOf ds ≤ N → DirList.wfB ds = true →
      (∀ sp ∈ scanDirs patterns ds basePath relativePath,
        ∃ nm tx, nm ∈ ds.names ∧ nm ≠ "" ∧ '/' ∉ nm.data ∧ famTail tx ∧
          sp.name.data = relPre relativePath ++ nm.data ++ tx ∧
          sp.absolutePath.data = basePre basePath ++ nm.data ++ tx) ∧
      ((scanDirs patterns ds basePath relativePath).map (fun sp => sp.name)).Nodup ∧
      (∀ sp1 ∈ scanDirs patterns ds basePath relativePath,
        ∀ sp2 ∈ scanDirs patterns ds basePath relativePath,
          ¬ strictDesc sp1.name sp2.name) ∧
      (∀ sp1 ∈ scanDirs patterns ds basePath relativePath,
        ∀ sp2 ∈ scanDirs patterns ds basePath relativePath,
          ¬ strictDesc sp1.absolutePath sp2.absolutePath) := by
  intro N
  induction N with
  | zero =>
    intro ds base rel hsize hwf
    exfalso
    cases ds <;> simp at hsize
  | succ n ihN =>
    intro ds base rel hsize hwf
    cases ds with
    | nil =>
      refine ⟨?_, ?_, ?_, ?_⟩ <;> simp [scanDirs]
    | cons nm child rest =>
      obtain ⟨hnm, hslash, hnotin, hwfc, hwfr⟩ := wfB_cons hwf
      have hnmd : nm.data ≠ [] := str_ne_empty_data hnm
      have hsr : sizeOf rest ≤ n := by
        cases child
        simp at hsize
        omega
      have hsc : sizeOf (FTree.dirsOf child) ≤ n := by
        cases child with
        | mk fl ds2 =>
          simp [FTree.dirsOf] at hsize ⊢
          omega
      have IHr := ihN rest base rel hsr hwfr
      -- facts about the tail results
      have restFam := IHr.1
      -- generic combination: any group of results all lying in nm's family
      -- can be prepended to the tail results
      have hcomb : ∀ G : List SubProject,
          scanDirs patterns (.cons nm child rest) base rel =
            G ++ scanDirs patterns rest base rel →
          (∀ sp ∈ G, ∃ tx, famTail tx ∧
            sp.name.data = relPre rel ++ nm.data ++ tx ∧
            sp.absolutePath.data = basePre base ++ nm.data ++ tx) →
          (G.map (fun sp => sp.name)).Nodup →
          (∀ sp1 ∈ G, ∀ sp2 ∈ G, ¬ strictDesc sp1.name sp2.name) →
          (∀ sp1 ∈ G, ∀ sp2 ∈ G, ¬ strictDesc sp1.absolutePath sp2.absolutePath) →
          (∀ sp ∈ scanDirs patterns (.cons nm child rest) base rel,
            ∃ nm2 tx, nm2 ∈ (DirList.cons nm child rest).names ∧ nm2 ≠ "" ∧
              '/' ∉ nm2.data ∧ famTail tx ∧
              sp.name.data = relPre rel ++ nm2.data ++ tx ∧
              sp.absolutePath.data = basePre base ++ nm2.data ++ tx) ∧
          ((scanDirs patterns (.cons nm child rest) base rel).map
            (fun sp => sp.name)).Nodup ∧
          (∀ sp1 ∈ scanDirs patterns (.cons nm child rest) base rel,
            ∀ sp2 ∈ scanDirs patterns (.cons nm child rest) base rel,
              ¬ strictDesc sp1.name sp2.name) ∧
          (∀ sp1 ∈ scanDirs patterns (.cons nm child rest) base rel,
            ∀ sp2 ∈ scanDirs patterns (.cons nm child rest) base rel,
              ¬ strictDesc sp1.absolutePath sp2.absolutePath) := by
        intro G heq hfam hnodupG hdescG hdescGa
        rw [heq]
        -- cross facts between a group element and a tail element
        have crossNe : ∀ x ∈ G, ∀ y ∈ scanDirs patterns rest base rel,
            x.name ≠ y.name := by
          intro x hx y hy hxy
          obtain ⟨tx, htx, hxn, _⟩ := hfam x hx
          obtain ⟨nm2, ty, hm2, hne2, hsl2, hty, hyn, _⟩ := restFam y hy
          have hnm2 : nm2 ≠ nm := fun h => hnotin (h ▸ hm2)
          have : nm.data ≠ nm2.data := fun h => hnm2 (String.ext h.symm)
          exact fam_ne hnmd (str_ne_empty_data hne2) hslash hsl2 this htx hty
            (by rw [← hxn, ← hyn, hxy])
        have crossDesc : ∀ x ∈ G, ∀ y ∈ scanDirs patterns rest base rel,
            ¬ strictDesc x.name y.name := by
          intro x hx y hy hd
          obtain ⟨tx, htx, hxn, _⟩ := hfam x hx
          obtain ⟨nm2, ty, hm2, hne2, hsl2, hty, hyn, _⟩ := restFam y hy
          have hnm2 : nm.data ≠ nm2.data :=
            fun h => hnotin ((String.ext h) ▸ hm2)
          obtain ⟨cd, hcd⟩ := strictDesc_data.mp hd
          rw [hyn, hxn] at hcd
          exact fam_not_desc hnmd (str_ne_empty_data hne2) hslash hsl2 hnm2 htx hty
            cd hcd
        have crossDescR : ∀ y ∈ scanDirs patterns rest base rel, ∀ x ∈ G,
            ¬ strictDesc y.name x.name := by
          intro y hy x hx hd
          obtain ⟨tx, htx, hxn, _⟩ := hfam x hx
          obtain ⟨nm2, ty, hm2, hne2, hsl2, hty, hyn, _⟩ := restFam y hy
          have hnm2 : nm2.data ≠ nm.data :=
            fun h => hnotin ((String.ext h).symm ▸ hm2)
          obtain ⟨cd, hcd⟩ := strictDesc_data.mp hd
          rw [hyn, hxn] at hcd
          exact fam_not_desc (str_ne_empty_data hne2) hnmd hsl2 hslash hnm2 hty htx
            cd hcd
        have crossDescA : ∀ x ∈ G, ∀ y ∈ scanDirs patterns rest base rel,
            ¬ strictDesc x.absolutePath y.absolutePath := by
          intro x hx y hy hd
          obtain ⟨tx, htx, _, hxa⟩ := hfam x hx
          obtain ⟨nm2, ty, hm2, hne2, hsl2, hty, _, hya⟩ := restFam y hy
          have hnm2 : nm.data ≠ nm2.data :=
            fun h => hnotin ((String.ext h) ▸ hm2)
          obtain ⟨cd, hcd⟩ := strictDesc_data.mp hd
          rw [hya, hxa] at hcd
          exact fam_not_desc hnmd (str_ne_empty_data hne2) hslash hsl2 hnm2 htx hty
            cd hcd
        have crossDescAR : ∀ y ∈ scanDirs patterns rest base rel, ∀ x ∈ G,
            ¬ strictDesc y.absolutePath x.absolutePath := by
          intro y hy x hx hd
          obtain ⟨tx, htx, _, hxa⟩ := hfam x hx
          obtain ⟨nm2, ty, hm2, hne2, hsl2, hty, _, hya⟩ := restFam y hy
          have hnm2 : nm2.data ≠ nm.data :=
            fun h => hnotin ((String.ext h).symm ▸ hm2)
          obtain ⟨cd, hcd⟩ := strictDesc_data.mp hd
          rw [hya, hxa] at hcd
          exact fam_not_desc (str_ne_empty_data hne2) hnmd hsl2 hslash hnm2 hty htx
            cd hcd
        refine ⟨?_, ?_, ?_, ?_⟩
        · intro sp hsp
          rcases List.mem_append.mp hsp with hsp | hsp
          · obtain ⟨tx, htx, hn, ha⟩ := hfam sp hsp
            exact ⟨nm, tx, List.mem_cons_self _ _, hnm, hslash, htx, hn, ha⟩
          · obtain ⟨nm2, tx, hm2, h1, h2, h3, h4, h5⟩ := restFam sp hsp
            exact ⟨nm2, tx, List.mem_cons_of_mem _ hm2, h1, h2, h3, h4, h5⟩
        · rw [List.map_append, List.nodup_append]
          refine ⟨hnodupG, IHr.2.1, ?_⟩
          intro a ha hb
          obtain ⟨sp1, hsp1, rfl⟩ := List.mem_map.mp ha
          obtain ⟨sp2, hsp2, heq2⟩ := List.mem_map.mp hb
          exact crossNe sp1 hsp1 sp2 hsp2 heq2.symm
        · intro sp1 hsp1 sp2 hsp2
          rcases List.mem_append.mp hsp1 with h1 | h1 <;>
            rcases List.mem_append.mp hsp2 with h2 | h2
          · exact hdescG sp1 h1 sp2 h2
          · exact crossDesc sp1 h1 sp2 h2
          · exact crossDescR sp1 h1 sp2 h2
          · exact IHr.2.2.1 sp1 h1 sp2 h2
        · intro sp1 hsp1 sp2 hsp2
          rcases List.mem_append.mp hsp1 with h1 | h1 <;>
            rcases List.mem_append.mp hsp2 with h2 | h2
          · exact hdescGa sp1 h1 sp2 h2
          · exact crossDescA sp1 h1 sp2 h2
          · exact crossDescAR sp1 h1 sp2 h2
          · exact IHr.2.2.2 sp1 h1 sp2 h2
      by_cases hskip : shouldSkip patterns nm = true
      · refine hcomb [] (by simp [scanDirs, hskip]) ?_ ?_ ?_ ?_
        · intro sp hsp
          cases hsp
        · simp
        · intro sp1 hsp1
          cases hsp1
        · intro sp1 hsp1
          cases hsp1
      · by_cases hms : (isProjectDir child).isEmpty = true
        · -- descend into the child
          have IHc := ihN (FTree.dirsOf child) (joinPath base nm) (extRel rel nm)
            hsc (by cases child with | mk fl ds2 => exact hwfc)
          refine hcomb (scanDirs patterns (FTree.dirsOf child) (joinPath base nm)
            (extRel rel nm)) (by simp [scanDirs, hskip, hms, scanTree_eq]) ?_
            IHc.2.1 IHc.2.2.1 IHc.2.2.2
          intro sp hsp
          obtain ⟨nm2, tx2, _, hne2, _, htx2, hn, ha⟩ := IHc.1 sp hsp
          refine ⟨'/' :: (nm2.data ++ tx2), Or.inr ⟨_, rfl⟩, ?_, ?_⟩
          · rw [hn, relPre_extRel hnm, extRel_data]
            simp [List.append_assoc]
          · rw [ha, basePre_joinPath hnm, joinPath_data]
            simp [List.append_assoc]
        · -- the directory itself is a project: record it, do not descend
          refine hcomb [⟨extRel rel nm, joinPath base nm, isProjectDir child⟩]
            (by simp [scanDirs, hskip, hms]) ?_ (by simp) ?_ ?_
          · intro sp hsp
            rcases List.mem_singleton.mp hsp with rfl
            refine ⟨[], Or.inl rfl, ?_, ?_⟩
            · rw [extRel_data]
              simp
            · rw [joinPath_data]
              simp
          · intro sp1 hsp1 sp2 hsp2
            rcases List.mem_singleton.mp hsp1 with rfl
            rcases List.mem_singleton.mp hsp2 with rfl
            exact strictDesc_irrefl _
          · intro sp1 hsp1 sp2 hsp2
            rcases List.mem_singleton.mp hsp1 with rfl
            rcases List.mem_singleton.mp hsp2 with rfl
            exact strictDesc_irrefl _

/-- C5: on any well-formed directory tree (nonempty, slash-free, distinct
entry names — true of every real directory), `discoverSubprojects` returns
no two SubProjects with the same name, and no SubProject whose name (or
absolute path) lies strictly below another's: once a directory qualifies it
is recorded and its children are never scanned. -/
theorem c5_discovery :
    ∀ (patterns : List String) (workspaceRoot : String) (t : FTree),
      FTree.wfB t = true →
      ((discoverSubprojects patterns workspaceRoot t).map (fun sp => sp.name)).Nodup ∧
      (∀ sp1 ∈ discoverSubprojects patterns workspaceRoot t,
        ∀ sp2 ∈ discoverSubprojects patterns workspaceRoot t,
          ¬ strictDesc sp1.name sp2.name) ∧
      (∀ sp1 ∈ discoverSubprojects patterns workspaceRoot t,
        ∀ sp2 ∈ discoverSubprojects patterns workspaceRoot t,
          ¬ strictDesc sp1.absolutePath sp2.absolutePath) := by
  intro patterns root t hwf
  have base := scanDirs_inv patterns (sizeOf (FTree.dirsOf t)) (FTree.dirsOf t)
    root "" (le_refl _) (by cases t with | mk fl ds => exact hwf)
  unfold discoverSubprojects
  rw [scanTree_eq]
  have hperm := List.perm_insertionSort
    (fun a b : SubProject => strLeB a.name b.name = true)
    (scanDirs patterns (FTree.dirsOf t) root "")
  refine ⟨?_, ?_, ?_⟩
  · exact (hperm.map (fun sp => sp.name)).nodup_iff.mpr base.2.1
  · intro sp1 h1 sp2 h2
    exact base.2.2.1 sp1 (hperm.mem_iff.mp h1) sp2 (hperm.mem_iff.mp h2)
  · intro sp1 h1 sp2 h2
    exact base.2.2.2 sp1 (hperm.mem_iff.mp h1) sp2 (hperm.mem_iff.mp h2)

theorem c5_witness :
    FTree.wfB trNested = true ∧
    ((discoverSubprojects [] "/r" trNested).map (fun sp => sp.name)).Nodup ∧
    (discoverSubprojects [] "/r" trNested).map (fun sp => sp.name) = ["mcp/weather"] :=
  ⟨by decide, (c5_discovery [] "/r" trNested (by decide)).1, by decide⟩
